import Mathlib

/-!
Verification of the orchestration core of `rust-i18n-autotranslate`.

This file is a shallow embedding, in Lean 4, of the pure logic of the
crate: the language normalizer (`src/utils/languages.rs`), the persisted
translation cache (`src/i18n/autogen_cache.rs`), the change detector
(`is_match_sha256`), the locale-set reconciler (`verify_locales` in
`src/utils/mod.rs`), the per-chunk batch deduplicator shared by the
provider adapters (`translate_v2` in `src/api/google_translate.rs` and
`src/api/deepl_translate.rs`, `translate_v1` in
`src/api/libre_translate.rs`), the token-bucket rate limiter
(`src/utils/translation_limiter.rs`) and the orchestrator
(`TranslationAPI::translate` in `src/lib.rs`).

Impure boundaries are modelled explicitly:
* the file system is a value of type `Dir` (a list of files in directory
  iteration order), threaded through the functions that read or mutate it;
* the sha256 digest, the wire-level provider call and the locale loader
  are parameters (`hash`, `tdata`, `loadSrc`); they are plain functions,
  so determinism (same input, same output) is automatic;
* HTML-entity decoding of provider responses is treated as already
  applied to the response strings handed to the reconstruction logic;
* Rust's `f64` token counter of the rate limiter is modelled by `ℚ`
  (the clamp/decrement logic under scrutiny is exact in both).

Rust `HashMap`s are modelled as association lists; where the source
iterates a `HashMap` (only in the duplicate back-fill search, where the
groups partition the index range, and map lookups), the iteration order
provably does not affect the result, and the association-list order is
used.

Several core `String` operations (`toUpper`, `trim`, `splitOn`) do not
reduce in the kernel, so the embedding defines character-list versions
with the same semantics as the Rust operations they model.
-/

deriving instance DecidableEq for Except

namespace AutoTranslate

/-! ## Character-list string operations (models of Rust `str` methods) -/

/-- Model of Rust `str::to_uppercase` (the crate applies it to ASCII
language tags only, where per-character uppercasing is exact). -/
def toUpperM (s : String) : String := ⟨s.data.map Char.toUpper⟩

/-- Whitespace test used by `trimM`; agrees with Rust
`char::is_whitespace` on the ASCII whitespace that can surround
translations. -/
def isWs (c : Char) : Bool := c = ' ' || c = '\t' || c = '\n' || c = '\r'

/-- Model of Rust `str::trim`: drop whitespace from both ends. -/
def trimM (s : String) : String :=
  ⟨((s.data.dropWhile isWs).reverse.dropWhile isWs).reverse⟩

/-- Helper for `splitDash`. -/
def splitDashAux : List Char → List Char → List String
  | [], acc => [⟨acc.reverse⟩]
  | c :: rest, acc =>
    if c = '-' then ⟨acc.reverse⟩ :: splitDashAux rest []
    else splitDashAux rest (c :: acc)

/-- Model of Rust `str::split('-')` collected to a list
(`locale.split("-").collect()` in `languages.rs`). -/
def splitDash (s : String) : List String := splitDashAux s.data []

/-- Helper for `strContains`: does `needle` occur in the haystack list? -/
def containsAux (needle : List Char) : List Char → Bool
  | [] => needle.isEmpty
  | c :: t => needle.isPrefixOf (c :: t) || containsAux needle t

/-- Model of Rust `str::contains(substring)`
(`x.contains(first)` in `languages.rs`). -/
def strContains (hay needle : String) : Bool := containsAux needle.data hay.data

/-! ## Association-list maps (models of Rust `HashMap` / `BTreeMap`) -/

/-- Key-value map as an association list. -/
abbrev KVMap := List (String × String)

/-- Lookup in an association list (model of `HashMap::get`). -/
def lookupKV : KVMap → String → Option String
  | [], _ => none
  | (k, v) :: rest, key => if k = key then some v else lookupKV rest key

/-- Insert with replacement (model of `HashMap::insert`: an existing
binding for the key is overwritten, otherwise the binding is added). -/
def insertKV : KVMap → String → String → KVMap
  | [], key, val => [(key, val)]
  | (k, v) :: rest, key, val =>
    if k = key then (k, val) :: rest else (k, v) :: insertKV rest key val

/-- The `data` field of the cache: target language → (source text →
translated text). -/
abbrev LangData := List (String × KVMap)

/-- Lookup in the per-language table (model of `autogen.data.get`). -/
def lookupLD : LangData → String → Option KVMap
  | [], _ => none
  | (k, v) :: rest, key => if k = key then some v else lookupLD rest key

/-- Insert with replacement in the per-language table
(model of `autogen.data.insert`). -/
def insertLD : LangData → String → KVMap → LangData
  | [], key, val => [(key, val)]
  | (k, v) :: rest, key, val =>
    if k = key then (k, val) :: rest else (k, v) :: insertLD rest key val

/-- Removal (model of `autogen.data.remove(&file_stem)` in
`verify_locales`). -/
def removeLD : LangData → String → LangData
  | [], _ => []
  | (k, v) :: rest, key => if k = key then rest else (k, v) :: removeLD rest key

/-! ## `src/utils/languages.rs`: the language normalizer -/

/-- `DEEPL_LANG_CODES` from `languages.rs`. -/
def DEEPL_LANG_CODES : List String := [
  "ACE", "AF", "AN", "AR", "AS", "AY", "AZ", "BA", "BE", "BG", "BHO", "BN", "BR", "BS", "CA",
  "CEB", "CKB", "CS", "CY", "DA", "DE", "EL", "EN", "EN-GB", "EN-US", "EO", "ES", "ES-419", "ET",
  "EU", "FA", "FI", "FR", "GA", "GL", "GN", "GOM", "GU", "HA", "HE", "HI", "HR", "HT", "HU",
  "HY", "ID", "IG", "IS", "IT", "JA", "JV", "KA", "KK", "KMR", "KO", "KY", "LA", "LB", "LMO",
  "LN", "LT", "LV", "MAI", "MG", "MI", "MK", "ML", "MN", "MR", "MS", "MT", "MY", "NB", "NE",
  "NL", "OC", "OM", "PA", "PAG", "PAM", "PL", "PRS", "PS", "PT", "PT-BR", "PT-PT", "QU", "RO",
  "RU", "SA", "SCN", "SK", "SL", "SQ", "SR", "ST", "SU", "SV", "SW", "TA", "TE", "TG", "TH",
  "TK", "TL", "TN", "TR", "TS", "TT", "UK", "UR", "UZ", "VI", "WO", "XH", "YI", "YUE", "ZH",
  "ZH-HANS", "ZH-HANT", "ZU"]

/-- `GOOGLE_TRANSLATE_LANG_CODES` from `languages.rs`. -/
def GOOGLE_TRANSLATE_LANG_CODES : List String := [
  "ab", "ace", "ach", "af", "sq", "alz", "am", "ar", "hy", "as", "awa", "ay", "az", "ban", "bm",
  "ba", "eu", "btx", "bts", "bbc", "be", "bem", "bn", "bew", "bho", "bik", "bs", "br", "bg",
  "bua", "yue", "ca", "ceb", "ny", "zh-CN", "zh", "zh-TW", "cv", "co", "crh", "hr", "cs", "da",
  "din", "dv", "doi", "dov", "nl", "dz", "en", "eo", "et", "ee", "fj", "fil", "tl", "fi", "fr",
  "fr-FR", "fr-CA", "fy", "ff", "gaa", "gl", "lg", "ka", "de", "el", "gn", "gu", "ht", "cnh",
  "ha", "haw", "iw", "he", "hil", "hi", "hmn", "hu", "hrx", "is", "ig", "ilo", "id", "ga", "it",
  "ja", "jw", "jv", "kn", "pam", "kk", "km", "cgg", "rw", "ktu", "gom", "ko", "kri", "ku", "ckb",
  "ky", "lo", "ltg", "la", "lv", "lij", "li", "ln", "lt", "lmo", "luo", "lb", "mk", "mai", "mak",
  "mg", "ms", "ms-Arab", "ml", "mt", "mi", "mr", "chm", "mni-Mtei", "min", "lus", "mn", "my",
  "nr", "new", "ne", "nso", "no", "nus", "oc", "or", "om", "pag", "pap", "ps", "fa", "pl", "pt",
  "pt-PT", "pt-BR", "pa", "pa-Arab", "qu", "rom", "ro", "rn", "ru", "sm", "sg", "sa", "gd", "sr",
  "st", "crs", "shn", "sn", "scn", "szl", "sd", "si", "sk", "sl", "so", "su", "sw", "ss", "sv",
  "tg", "ta", "tt", "te", "tet", "th", "ti", "ts", "tn", "tr", "tk", "ak", "uk", "ur", "ug",
  "uz", "vi", "cy", "xh", "yi", "yo", "yua", "zu"]

/-- `LIBRE_TRANSLATE_LANG_CODES` from `languages.rs`. -/
def LIBRE_TRANSLATE_LANG_CODES : List String := [
  "en", "sq", "ar", "az", "eu", "bn", "bg", "ca", "zh-Hans", "zh-Hant", "cs", "da", "nl", "eo",
  "et", "fi", "fr", "gl", "de", "el", "he", "hi", "hu", "id", "ga", "it", "ja", "ko", "ky", "lv",
  "lt", "ms", "nb", "fa", "pl", "pt", "pt-BR", "ro", "ru", "sk", "sl", "es", "sv", "tl", "th",
  "tr", "uk", "ur", "vi"]

/-- `TranslationProvider` from `src/config/mod.rs`. -/
inductive TranslationProvider
  | GOOGLE
  | DEEPL
  | LIBRETRANSLATE
deriving DecidableEq, Repr

/-- The private `normalize` function of `languages.rs`.  The error
payload carries the offending locale string (in the source it is wrapped
in the message `the language ... is not supported`). -/
def normalize (locale : String) (codes : List String) : Except String String :=
  if codes.contains locale then .ok locale
  else
    let split_source_lang := splitDash locale
    match split_source_lang.head? with
    | some first =>
      match codes.findIdx? (fun x => strContains x first) with
      | some found_code => .ok (codes.getD found_code "")
      | none => .error locale
    | none => .error locale

/-- `normalize_lang` from `languages.rs`: DeepL tags are uppercased
first, the other providers pass the tag through unchanged. -/
def normalize_lang (provider : TranslationProvider) (lang_code : String) :
    Except String String :=
  match provider with
  | .GOOGLE => normalize lang_code GOOGLE_TRANSLATE_LANG_CODES
  | .DEEPL => normalize (toUpperM lang_code) DEEPL_LANG_CODES
  | .LIBRETRANSLATE => normalize lang_code LIBRE_TRANSLATE_LANG_CODES

/-! ## `src/i18n/autogen_cache.rs`: the persisted cache -/

/-- The `Autogen` struct of `autogen_cache.rs`: the persisted checksum
(field literally named `sha256` in the source) and the per-target-language
translation table. -/
structure Autogen where
  sha256 : Option String
  data : LangData
deriving DecidableEq, Repr

/-- `Autogen::default()`. -/
def Autogen.default : Autogen := { sha256 := none, data := [] }

/-! ## The file system model -/

/-- One file of the locale directory.  `ext = ""` models a file name
with no extension (Rust `Path::extension()` returning `None`). -/
structure FileEnt where
  stem : String
  ext : String
  content : String
deriving DecidableEq, Repr

/-- The file name of an entry, as produced by Rust `DirEntry::file_name`. -/
def FileEnt.name (f : FileEnt) : String :=
  if f.ext = "" then f.stem else f.stem ++ "." ++ f.ext

/-- The extension with the `json` default
(`item_path.extension().unwrap_or(OsStr::new("json"))`). -/
def FileEnt.extD (f : FileEnt) : String := if f.ext = "" then "json" else f.ext

/-- A locale directory: its files in directory iteration order. -/
structure Dir where
  entries : List FileEnt
deriving DecidableEq, Repr

/-- `get_source_file_path` from `src/utils/mod.rs`: the first file of
the directory whose stem equals the source locale (`break` on the first
match; earlier non-matches reset the accumulator to `None`, so the
result is exactly the first match). -/
def getSourceFilePath (dir : Dir) (source_locale : String) : Option FileEnt :=
  dir.entries.find? (fun f => f.stem = source_locale)

/-- `is_match_sha256` from `autogen_cache.rs`: recompute the digest of
the source file and return it only when it differs from the stored
digest string; every failure degrades to `none` ("unchanged").  `hash`
models `sha256::try_digest` (`none` = hashing failed). -/
def isMatchSha256 (hash : String → Option String) (dir : Dir)
    (source_lang : String) (autogen_sha : String) : Option String :=
  match getSourceFilePath dir source_lang with
  | some item_path =>
    match hash item_path.content with
    | some sha => if autogen_sha ≠ sha then some sha else none
    | none => none
  | none => none

/-! ## `src/utils/mod.rs`: the locale-set reconciler -/

/-- One pass of the `verify_locales` directory loop: files that are
neither a `target.ext` name nor the source file name are deleted from
the directory and their stem is purged from the persisted cache
(`load_autogen` / `data.remove` / `update_autogen_cache`); the other
file names are collected into `file_names_dir`.  Returns (kept entries,
collected file names, cache file after purges). -/
def verifyLoop (targets_with_ext : List String) (source_filename : String) :
    List FileEnt → Autogen → List FileEnt × List String × Autogen
  | [], cache => ([], [], cache)
  | f :: rest, cache =>
    if ¬ targets_with_ext.contains f.name ∧ f.name ≠ source_filename then
      let (kept, names, cache') := verifyLoop targets_with_ext source_filename rest
        { cache with data := removeLD cache.data f.stem }
      (kept, names, cache')
    else
      let (kept, names, cache') := verifyLoop targets_with_ext source_filename rest cache
      (f :: kept, f.name :: names, cache')

/-- `verify_locales` from `src/utils/mod.rs`.  The persisted cache file
is threaded because the stale-language purge rewrites it.  Returns the
directory after deletions, the cache file after purges, and the
verification result (`error` = retranslation forced). -/
def verifyLocales (dir : Dir) (cacheFile : Autogen) (source_locale : String)
    (target_locales : List String) : Dir × Autogen × Except String Unit :=
  match getSourceFilePath dir source_locale with
  | some source_locale_path =>
    let ext := source_locale_path.extD
    let targets_with_ext := target_locales.map (fun t => t ++ "." ++ ext)
    let source_filename := source_locale_path.name
    let (kept, file_names_dir, cache') :=
      verifyLoop targets_with_ext source_filename dir.entries cacheFile
    let should_retranslate := targets_with_ext.any (fun t => !(file_names_dir.contains t))
    (⟨kept⟩, cache',
      if should_retranslate then .error "Files mismatch..retranslate" else .ok ())
  | none => (dir, cacheFile, .error "No source file path")

/-! ## `src/utils/translation_limiter.rs`: the token bucket -/

/-- `TranslationLimiter` state.  The Rust fields `max_burst : u32` and
`tokens, tokens_per_sec : f64` are modelled over `ℚ`; `last_update` is
replaced by passing the elapsed time of each attempt explicitly. -/
structure TranslationLimiter where
  max_burst : ℚ
  tokens_per_sec : ℚ
  tokens : ℚ
deriving DecidableEq, Repr

/-- `TranslationLimiter::new()`: burst 80, 20 tokens per minute,
bucket initially full. -/
def TranslationLimiter.new : TranslationLimiter :=
  { max_burst := 80, tokens_per_sec := 20 / 60, tokens := 80 }

/-- The lazy refill at the top of the `SyncRateLimiter::run` /
`SyncRateLimiter::translate` loop:
`tokens = min(tokens + elapsed * tokens_per_sec, max_burst)`. -/
def refill (l : TranslationLimiter) (elapsed : ℚ) : TranslationLimiter :=
  { l with tokens := min (l.tokens + elapsed * l.tokens_per_sec) l.max_burst }

/-- The grant test of the loop: when at least one token is available the
caller takes one and proceeds (`true`); otherwise the state is unchanged
and the caller sleeps (`false`). -/
def grant (l : TranslationLimiter) : TranslationLimiter × Bool :=
  if 1 ≤ l.tokens then ({ l with tokens := l.tokens - 1 }, true) else (l, false)

/-- One acquire attempt: lazy refill from the elapsed wall-clock time,
then the grant test. -/
def acquireAttempt (l : TranslationLimiter) (elapsed : ℚ) :
    TranslationLimiter × Bool :=
  grant (refill l elapsed)

/-- All intermediate limiter states produced by a sequence of acquire
attempts with the given elapsed times: for each attempt, the state right
after the lazy refill and the state after the grant test. -/
def acquireStates (l : TranslationLimiter) : List ℚ → List TranslationLimiter
  | [] => []
  | e :: es =>
    let r := refill l e
    let l' := (grant r).1
    r :: l' :: acquireStates l' es

/-- The bucket invariant claimed by the specification. -/
def TokensInRange (l : TranslationLimiter) : Prop :=
  0 ≤ l.tokens ∧ l.tokens ≤ l.max_burst

/-! ## JSON shape of the persisted cache file (`serde` on `Autogen`) -/

/-- Minimal JSON document model for the cache file. -/
inductive Json
  | null
  | str (s : String)
  | obj (fields : List (String × Json))

/-- The keys of a top-level JSON object. -/
def Json.topKeys : Json → List String
  | .obj fields => fields.map Prod.fst
  | _ => []

/-- Serialization of the `data` field: a JSON object per target
language, each mapping source texts to translated strings. -/
def serializeData (d : LangData) : Json :=
  .obj (d.map (fun p => (p.1, .obj (p.2.map (fun q => (q.1, Json.str q.2))))))

/-- Derived-`serde` serialization of `Autogen`
(`serde_json::to_writer(writer, &autogen)` in `update_autogen_cache`):
field `sha256` (an `Option<String>`, so `null` or a string) and field
`data`. -/
def serializeAutogen (a : Autogen) : Json :=
  .obj [("sha256", match a.sha256 with | some s => .str s | none => .null),
        ("data", serializeData a.data)]

/-- Parse one language's sub-object back to a `KVMap`. -/
def parseKV : List (String × Json) → Option KVMap
  | [] => some []
  | (k, .str v) :: rest => (parseKV rest).map (fun r => (k, v) :: r)
  | _ => none

/-- Parse the `data` object back to a `LangData`. -/
def parseData : List (String × Json) → Option LangData
  | [] => some []
  | (k, .obj kv) :: rest => do
    let m ← parseKV kv
    let r ← parseData rest
    pure ((k, m) :: r)
  | _ => none

/-- Deserialization of the cache file (`serde_json::from_reader` in
`load_autogen`): a top-level object with a `sha256` field that is `null`
or a string, and a `data` field that is an object of objects of
strings. -/
def parseAutogen : Json → Option Autogen
  | .obj [("sha256", sha), ("data", .obj d)] => do
    let c ← match sha with
      | .null => some none
      | .str s => some (some s)
      | _ => none
    let data ← parseData d
    pure { sha256 := c, data := data }
  | _ => none

/-! ## The per-chunk batch deduplicator

Embeds the chunk loop shared by `translate_v2`
(`src/api/google_translate.rs` lines 46-151, `src/api/deepl_translate.rs`
lines 76-188) and `translate_v1` (`src/api/libre_translate.rs`).  The
response strings are taken as already HTML-entity decoded. -/

/-- `mem_cache`: distinct source string → positions in the chunk that
hold it, in insertion order. -/
abbrev MemCache := List (String × List Nat)

/-- `mem_cache.get(q)`. -/
def memGet : MemCache → String → Option (List Nat)
  | [], _ => none
  | (k, l) :: rest, q => if k = q then some l else memGet rest q

/-- `mem_val.push(idx)` through `mem_cache.get_mut(q)`: append the
index to the group of `q`. -/
def memPush : MemCache → String → Nat → MemCache
  | [], _, _ => []
  | (k, l) :: rest, q, idx =>
    if k = q then (k, l ++ [idx]) :: rest else (k, l) :: memPush rest q idx

/-- The chunk request loop: for each position, a repeated string
contributes a `""` placeholder to the outgoing query and its position is
recorded in the string's group; a first occurrence is sent verbatim and
opens a group.  Returns the outgoing query list and the final
`mem_cache`. -/
def buildChunkAux : List String → Nat → MemCache → List String × MemCache
  | [], _, cache => ([], cache)
  | q :: rest, idx, cache =>
    match memGet cache q with
    | some _ =>
      let r := buildChunkAux rest (idx + 1) (memPush cache q idx)
      ("" :: r.1, r.2)
    | none =>
      let r := buildChunkAux rest (idx + 1) (cache ++ [(q, [idx])])
      (q :: r.1, r.2)

/-- The query list and deduplication index of one chunk. -/
def buildChunk (chunk : List String) : List String × MemCache :=
  buildChunkAux chunk 0 []

/-- The back-fill search `for mem_val in mem_cache.values()`: the first
group whose position list contains `idx`, reported as
(`mem_val[0]`, position of `idx` in the list).  The groups partition the
chunk's indices, so `HashMap` iteration order is immaterial. -/
def findGroup : MemCache → Nat → Option (Nat × Nat)
  | [], _ => none
  | (_, l) :: rest, idx =>
    match l.findIdx? (fun x => x = idx) with
    | some pos => some (l.headD 0, pos)
    | none => findGroup rest idx

/-- The response reconstruction loop of `translate_v2`: each response
string is decoded and trimmed; a non-blank result is pushed as is, and a
blank result at a duplicate position (`pos > 0` in its group) is
back-filled with the *untrimmed* decoded response at the group's first
position.  A blank result at a defining position (`pos = 0`) falls back
to the blank itself.  `full` is the whole response
(`g_translated_data`), `idx` the absolute position of the sublist head. -/
def reconstructAux (cache : MemCache) (full : List String) :
    List String → Nat → List String
  | [], _ => []
  | text :: rest, idx =>
    let decoded := trimM text
    let tail := reconstructAux cache full rest (idx + 1)
    if decoded = "" then
      match findGroup cache idx with
      | some (init_pos, pos) =>
        if 0 < pos then
          match full.get? init_pos with
          | some translation => translation :: tail
          | none => decoded :: tail
        else decoded :: tail
      | none => tail
    else decoded :: tail

/-- Reconstruction of one chunk's output from the deduplication index
and the (decoded) provider response. -/
def reconstructChunk (cache : MemCache) (resp : List String) : List String :=
  reconstructAux cache resp resp 0

/-- End-to-end chunk translation against a pure provider `T`: the
provider translates the outgoing query position-wise (so a `""`
placeholder comes back as `T ""`). -/
def translateChunk (T : String → String) (chunk : List String) : List String :=
  let b := buildChunk chunk
  reconstructChunk b.2 (b.1.map T)

/-! ## `src/api/mod.rs` and `src/lib.rs`: the orchestrator -/

/-- `translate_data` from `src/api/mod.rs`: normalize both language
codes for the provider, then delegate to the provider adapter `net`
(normalized source → normalized target → texts → results). -/
def translateData
    (net : String → String → List String → Except String (List String))
    (provider : TranslationProvider) (source_data : List String)
    (source_lang target_lang : String) : Except String (List String) := do
  let normalized_source_lang ← normalize_lang provider source_lang
  let normalized_target_lang ← normalize_lang provider target_lang
  net normalized_source_lang normalized_target_lang source_data

/-- Removal of a key from a key-unique map
(`source_data.remove("_version")` on a `BTreeMap`). -/
def removeKV : KVMap → String → KVMap
  | [], _ => []
  | (k, v) :: rest, key => if k = key then rest else (k, v) :: removeKV rest key

/-- The cache partition of `TranslationAPI::translate` (lib.rs lines
201-210): the source entries whose text has no cache hit for this
target.  `to_translate_keys`/`to_translate_values` are the two
projections of this list. -/
def toTranslatePairs (autogen_data : KVMap) (source_data : KVMap) : KVMap :=
  source_data.filter (fun kv => (lookupKV autogen_data kv.2).isNone)

/-- Processing of one target language in the cache-enabled branch
(lib.rs lines 190-301).  `tdata` is `translate_data` partially applied
to the provider and source language (target language → values →
result).  Returns the updated `autogen.data` and the written
`translated_kv` (`none` when the count-mismatch guard skipped the
write).  `translated_kv` is a `BTreeMap` in the source; `source_data`
iterates in sorted unique-key order, so the map is represented by the
mapped list. -/
def processTargetCached
    (tdata : String → List String → Except String (List String))
    (data : LangData) (source_data : KVMap) (target_locale : String) :
    Except String (LangData × Option KVMap) :=
  let autogen_data := (lookupLD data target_locale).getD []
  let pairs := toTranslatePairs autogen_data source_data
  let to_translate_keys := pairs.map Prod.fst
  let to_translate_values := pairs.map Prod.snd
  match tdata target_locale to_translate_values with
  | .error e => .error e
  | .ok translated_values =>
    let autogen_locale := (lookupLD data target_locale).getD []
    if translated_values.length = to_translate_keys.length then
      if 0 < translated_values.length ∧ 0 < to_translate_keys.length then
        let autogen_locale' := (to_translate_values.zip translated_values).foldl
          (fun m p => insertKV m p.1 p.2) autogen_locale
        let data' := insertLD data target_locale autogen_locale'
        let translated_kv := source_data.map (fun og =>
          match to_translate_keys.findIdx? (fun x => x = og.1) with
          | some pos => (og.1, translated_values.getD pos og.2)
          | none => (og.1, (lookupKV autogen_locale' og.2).getD og.2))
        .ok (data', some translated_kv)
      else
        let translated_kv := source_data.map (fun og =>
          (og.1, (lookupKV autogen_locale og.2).getD og.2))
        .ok (data, some translated_kv)
    else
      .ok (data, none)

/-- Outcome of the per-target loop: how many `translate_data` calls were
made, and either the propagated error or the final `autogen.data`
together with the locale files written. -/
structure TargetsOutcome where
  calls : Nat
  res : Except String (LangData × List (String × KVMap))

/-- The cache-enabled `for target_locale in config.target_locales` loop:
a provider error aborts the loop immediately; a count-mismatch `continue`
carries the state to the next target. -/
def processTargetsCached
    (tdata : String → List String → Except String (List String))
    (data : LangData) (source_data : KVMap) :
    List String → TargetsOutcome
  | [] => { calls := 0, res := .ok (data, []) }
  | t :: rest =>
    match processTargetCached tdata data source_data t with
    | .error e => { calls := 1, res := .error e }
    | .ok (data', w) =>
      let o := processTargetsCached tdata data' source_data rest
      { calls := o.calls + 1,
        res :=
          match o.res with
          | .error e => .error e
          | .ok (data'', ws) =>
            .ok (data'', match w with | some kv => (t, kv) :: ws | none => ws) }

/-- Processing of one target language in the cache-disabled branch
(lib.rs lines 302-342): the whole value list is translated; the
count-mismatch guard skips the write in the same way; the cache is never
touched. -/
def processTargetUncached
    (tdata : String → List String → Except String (List String))
    (source_data : KVMap) (target_locale : String) :
    Except String (Option KVMap) :=
  let keys := source_data.map Prod.fst
  let values := source_data.map Prod.snd
  match tdata target_locale values with
  | .error e => .error e
  | .ok translated =>
    if translated.length = keys.length then .ok (some (keys.zip translated))
    else .ok none

/-- The cache-disabled target loop; `data` (the loaded `autogen.data`)
is passed through untouched, because this branch never reads or writes
the cache contents. -/
def processTargetsUncached
    (tdata : String → List String → Except String (List String))
    (data : LangData) (source_data : KVMap) :
    List String → TargetsOutcome
  | [] => { calls := 0, res := .ok (data, []) }
  | t :: rest =>
    match processTargetUncached tdata source_data t with
    | .error e => { calls := 1, res := .error e }
    | .ok w =>
      let o := processTargetsUncached tdata data source_data rest
      { calls := o.calls + 1,
        res :=
          match o.res with
          | .error e => .error e
          | .ok (data'', ws) =>
            .ok (data'', match w with | some kv => (t, kv) :: ws | none => ws) }

/-- The `Config` fields the orchestrator reads. -/
structure ConfigM where
  source_locale : String
  target_locales : List String
  use_cache : Bool

/-- The two terminal phases of a run: `skip` ("Already on latest") or
the translating phase. -/
inductive RunState
  | skip
  | translating
deriving DecidableEq, Repr

/-- Observable outcome of one orchestrator run.  `cacheFile` is the
persisted cache file after the run; `endPersist` records whether the
end-of-run `autogen.update_cache()` (lib.rs line 346) executed; `calls`
counts `translate_data` invocations.  Written locale files are reported
in `written` (serialization to disk is the external writer's job). -/
structure RunResult where
  dir : Dir
  cacheFile : Autogen
  result : Except String Unit
  state : RunState
  endPersist : Bool
  calls : Nat
  written : List (String × KVMap)

/-- `TranslationAPI::translate` from `src/lib.rs`: reconcile the locale
set (with its deletions and cache purges), load the cache, short-circuit
an empty target set, gate on the checksum delta and the reconciliation
result, load and filter the source locale, process every target
language, and persist the cache.  `hash` models `sha256::try_digest`,
`loadSrc` models `load_locales` restricted to the source locale, and
`tdata` models `translate_data` partially applied to the provider and
the source language. -/
def translateRun
    (tdata : String → List String → Except String (List String))
    (hash : String → Option String)
    (loadSrc : Dir → String → Option KVMap)
    (config : ConfigM) (dir : Dir) (cacheFile : Autogen) : RunResult :=
  let v := verifyLocales dir cacheFile config.source_locale config.target_locales
  let dir1 := v.1
  let file1 := v.2.1
  let verify_err := match v.2.2 with | .error _ => true | .ok _ => false
  let autogen := file1
  if config.target_locales = [] then
    { dir := dir1, cacheFile := { autogen with data := [] }, result := .ok (),
      state := .skip, endPersist := false, calls := 0, written := [] }
  else
    let checksum_res :=
      isMatchSha256 hash dir1 config.source_locale (autogen.sha256.getD "")
    if checksum_res.isSome || verify_err then
      let autogen1 : Autogen := { autogen with sha256 := checksum_res }
      match loadSrc dir1 config.source_locale with
      | some source_data0 =>
        let source_data := removeKV source_data0 "_version"
        let o :=
          if config.use_cache then
            processTargetsCached tdata autogen1.data source_data config.target_locales
          else
            processTargetsUncached tdata autogen1.data source_data config.target_locales
        match o.res with
        | .error e =>
          { dir := dir1, cacheFile := file1, result := .error e,
            state := .translating, endPersist := false, calls := o.calls,
            written := [] }
        | .ok (data', writes) =>
          { dir := dir1, cacheFile := { sha256 := autogen1.sha256, data := data' },
            result := .ok (), state := .translating, endPersist := true,
            calls := o.calls, written := writes }
      | none =>
        { dir := dir1, cacheFile := file1,
          result := .error "Could not find source locale data",
          state := .translating, endPersist := false, calls := 0, written := [] }
    else
      { dir := dir1, cacheFile := file1, result := .ok (), state := .skip,
        endPersist := false, calls := 0, written := [] }

/-! ## Claim-side definitions (written from the specification's words) -/

/-- Model of Rust `str::to_lowercase` on ASCII tags (used only to state
claim C4's alleged case convention). -/
def toLowerM (s : String) : String := ⟨s.data.map Char.toLower⟩

/-- The resolution procedure in claim C4's words, after the case
convention has been applied: exact allow-list match, else the first
allow-listed code containing the primary subtag, else `Unsupported`. -/
def resolveClaimC4 (tag : String) (codes : List String) : Except String String :=
  if codes.contains tag then .ok tag
  else
    match (splitDash tag).head? with
    | some primary =>
      match codes.find? (fun c => strContains c primary) with
      | some c => .ok c
      | none => .error tag
    | none => .error tag

/-- Claim C4 as stated: case-normalize per provider convention
("upper-case for DeepL, lower-case for the others"), then resolve. -/
def normalizeLangClaimC4 (provider : TranslationProvider) (tag : String) :
    Except String String :=
  match provider with
  | .DEEPL => resolveClaimC4 (toUpperM tag) DEEPL_LANG_CODES
  | .GOOGLE => resolveClaimC4 (toLowerM tag) GOOGLE_TRANSLATE_LANG_CODES
  | .LIBRETRANSLATE => resolveClaimC4 (toLowerM tag) LIBRE_TRANSLATE_LANG_CODES

/-- Claim C4 amended: DeepL tags are upper-cased, the other providers
use the tag exactly as supplied (no case normalization). -/
def normalizeLangAmendedC4 (provider : TranslationProvider) (tag : String) :
    Except String String :=
  match provider with
  | .DEEPL => resolveClaimC4 (toUpperM tag) DEEPL_LANG_CODES
  | .GOOGLE => resolveClaimC4 tag GOOGLE_TRANSLATE_LANG_CODES
  | .LIBRETRANSLATE => resolveClaimC4 tag LIBRE_TRANSLATE_LANG_CODES

/-! ## Helper lemmas -/

theorem findIdx_getD_eq_find (p : String → Bool) (codes : List String) :
    (match codes.findIdx? p with
     | some i => some (codes.getD i "")
     | none => (none : Option String)) = codes.find? p := by
  induction codes with
  | nil => rfl
  | cons a l ih =>
    by_cases h : p a
    · simp [List.findIdx?_cons, h, List.find?_cons_of_pos]
    · rw [List.findIdx?_cons]
      simp only [h, Bool.false_eq_true, if_false]
      rw [List.find?_cons_of_neg _ (by simp [h]), ← ih]
      cases hfi : l.findIdx? p with
      | none => simp [hfi]
      | some i => simp [hfi]

theorem normalize_eq_resolveClaimC4 (locale : String) (codes : List String) :
    normalize locale codes = resolveClaimC4 locale codes := by
  unfold normalize resolveClaimC4
  cases hc : codes.contains locale with
  | true => simp [hc]
  | false =>
    simp only [hc, Bool.false_eq_true, if_false]
    cases (splitDash locale).head? with
    | none => rfl
    | some first =>
      simp only
      rw [← findIdx_getD_eq_find (fun x => strContains x first) codes]
      cases codes.findIdx? (fun x => strContains x first) <;> rfl

theorem refill_range (l : TranslationLimiter) (elapsed : ℚ)
    (hrate : 0 ≤ l.tokens_per_sec) (he : 0 ≤ elapsed) (hl : TokensInRange l) :
    TokensInRange (refill l elapsed) := by
  obtain ⟨h0, h1⟩ := hl
  constructor
  · exact le_min (by positivity) (le_trans h0 h1)
  · exact min_le_right _ _

theorem grant_range (l : TranslationLimiter) (hl : TokensInRange l) :
    TokensInRange (grant l).1 := by
  obtain ⟨h0, h1⟩ := hl
  unfold grant
  by_cases h : (1 : ℚ) ≤ l.tokens
  · simp only [h, if_true]
    exact ⟨by dsimp only; linarith, by dsimp only; linarith⟩
  · simp only [h, if_false]
    exact ⟨h0, h1⟩

theorem refill_fields (l : TranslationLimiter) (e : ℚ) :
    (refill l e).tokens_per_sec = l.tokens_per_sec ∧
      (refill l e).max_burst = l.max_burst := ⟨rfl, rfl⟩

theorem grant_fields (l : TranslationLimiter) :
    (grant l).1.tokens_per_sec = l.tokens_per_sec ∧
      (grant l).1.max_burst = l.max_burst := by
  unfold grant
  by_cases h : (1 : ℚ) ≤ l.tokens <;> simp [h]

theorem parseKV_round (m : KVMap) :
    parseKV (m.map (fun q => (q.1, Json.str q.2))) = some m := by
  induction m with
  | nil => rfl
  | cons a l ih => simp [parseKV, ih]

theorem parseData_round (d : LangData) :
    parseData (d.map (fun p =>
      (p.1, Json.obj (p.2.map (fun q => (q.1, Json.str q.2)))))) = some d := by
  induction d with
  | nil => rfl
  | cons a l ih => simp [parseData, parseKV_round, ih, Bind.bind, Option.bind]

/-! ## Claims C4, C7, C9, C10 -/

/-- C4, counterexample: the claim's resolution procedure lower-cases the
tag for Google before the exact match, so it accepts `"EN"` (lower-cased
to the allow-listed `"en"`); the code applies no case normalization for
Google and rejects `"EN"` with `Unsupported`.  This refutes the claimed
"lower-case for the others" convention. -/
theorem C4_counterexample :
    normalizeLangClaimC4 .GOOGLE "EN" = .ok "en" ∧
      normalize_lang .GOOGLE "EN" = .error "EN" := by
  constructor <;> decide

/-- C4, amended: `normalize_lang` first tries an exact allow-list match
after case-normalizing per provider convention — upper-case for DeepL,
and *no change* for the other providers — and otherwise returns the
first allow-listed code containing the primary subtag of the tag split
on `-`, failing with `Unsupported` if neither matches.  In particular
`normalize_lang DEEPL "zh-TW"` resolves to the allow-listed `"ZH"` and
`normalize_lang GOOGLE "xx-yy"` fails with `Unsupported`. -/
theorem C4_normalizer_resolution :
    (∀ p tag, normalize_lang p tag = normalizeLangAmendedC4 p tag) ∧
      normalize_lang .DEEPL "zh-TW" = .ok "ZH" ∧
      "ZH" ∈ DEEPL_LANG_CODES ∧
      normalize_lang .GOOGLE "xx-yy" = .error "xx-yy" := by
  refine ⟨fun p tag => ?_, by decide, by decide, by decide⟩
  cases p <;>
    simp [normalize_lang, normalizeLangAmendedC4, normalize_eq_resolveClaimC4]

/-- C7: the change detector returns a hash exactly when the source file
is found, hashing succeeds, and the digest differs from the stored
checksum (an absent stored checksum — `stored.getD ""` in the caller —
counts as differing, because a digest is never the empty string); in
every other case it returns `none` rather than an error. -/
theorem C7_change_detector (hash : String → Option String) (dir : Dir)
    (source_lang : String) (stored : Option String)
    (hne : ∀ s h, hash s = some h → h ≠ "") :
    (∀ h, isMatchSha256 hash dir source_lang (stored.getD "") = some h ↔
      ∃ f, getSourceFilePath dir source_lang = some f ∧
        hash f.content = some h ∧ stored ≠ some h) ∧
    (getSourceFilePath dir source_lang = none →
      isMatchSha256 hash dir source_lang (stored.getD "") = none) ∧
    (∀ f, getSourceFilePath dir source_lang = some f → hash f.content = none →
      isMatchSha256 hash dir source_lang (stored.getD "") = none) := by
  unfold isMatchSha256
  cases hf : getSourceFilePath dir source_lang with
  | none => simp
  | some f =>
    cases hh : hash f.content with
    | none => simp [hh]
    | some sha =>
      simp only [hh]
      refine ⟨?_, by simp, ?_⟩
      · intro h
        constructor
        · intro hres
          by_cases hseq : stored.getD "" = sha
          · simp [hseq] at hres
          · simp only [ne_eq, hseq, not_false_eq_true, if_true,
              Option.some.injEq] at hres
            subst hres
            refine ⟨f, rfl, hh, ?_⟩
            cases stored with
            | none => simp
            | some s =>
              simp only [Option.getD_some] at hseq
              simpa using hseq
        · rintro ⟨f', hf', hsh, hst⟩
          have hfe : f' = f := (Option.some.inj hf').symm
          rw [hfe, hh] at hsh
          have hsha : sha = h := Option.some.inj hsh
          have hne' : stored.getD "" ≠ sha := by
            cases stored with
            | none =>
              simpa using fun e => hne f.content sha hh e.symm
            | some s =>
              simp only [Option.getD_some]
              intro e
              exact hst (by rw [e, hsha])
          subst hsha
          simp [hne']
      · intro f' hf' hcon
        have hfe : f' = f := (Option.some.inj hf').symm
        rw [hfe, hh] at hcon
        cases hcon

/-- Witness for C7: concrete directory, hash function and stored
checksum exercising the characterization. -/
theorem C7_change_detector_witness :
    (∀ (s h : String), (fun _ : String => some "H") s = some h → h ≠ "") ∧
    ((∀ h, isMatchSha256 (fun _ : String => some "H")
        ⟨[⟨"en", "json", "hello"⟩]⟩ "en" ((some "old").getD "") = some h ↔
      ∃ f, getSourceFilePath ⟨[⟨"en", "json", "hello"⟩]⟩ "en" = some f ∧
        (fun _ : String => some "H") f.content = some h ∧ (some "old") ≠ some h) ∧
    (getSourceFilePath ⟨[⟨"en", "json", "hello"⟩]⟩ "en" = none →
      isMatchSha256 (fun _ : String => some "H")
        ⟨[⟨"en", "json", "hello"⟩]⟩ "en" ((some "old").getD "") = none) ∧
    (∀ f, getSourceFilePath ⟨[⟨"en", "json", "hello"⟩]⟩ "en" = some f →
      (fun _ : String => some "H") f.content = none →
      isMatchSha256 (fun _ : String => some "H")
        ⟨[⟨"en", "json", "hello"⟩]⟩ "en" ((some "old").getD "") = none)) := by
  have hne : ∀ (s h : String), (fun _ : String => some "H") s = some h → h ≠ "" := by
    intro s h e
    injection e with e'
    subst e'
    decide
  exact ⟨hne, C7_change_detector (fun _ : String => some "H")
    ⟨[⟨"en", "json", "hello"⟩]⟩ "en" (some "old") hne⟩

/-- C9, counterexample: the top-level keys of the serialized cache file
are `sha256` and `data` (the struct field is literally named `sha256`),
not `checksum` and `data` as the claim states. -/
theorem C9_counterexample :
    (serializeAutogen Autogen.default).topKeys = ["sha256", "data"] ∧
      "checksum" ∉ (serializeAutogen Autogen.default).topKeys := by
  constructor <;> decide

/-- C9, amended: the persisted cache file is a single JSON document of
shape `sha256 : string or null` plus `data : object of per-language
string-to-string objects`, and loading such a document round-trips the
stored checksum and the per-language maps. -/
theorem C9_cache_file_shape (a : Autogen) :
    (serializeAutogen a).topKeys = ["sha256", "data"] ∧
      parseAutogen (serializeAutogen a) = some a := by
  refine ⟨rfl, ?_⟩
  cases a with
  | mk sha data =>
    cases sha <;>
      simp [serializeAutogen, parseAutogen, serializeData, parseData_round,
        Bind.bind, Option.bind]

/-- C10: from any state with tokens in `[0, max_burst]` and a
nonnegative refill rate, every state reached along any sequence of
acquire attempts with nonnegative elapsed times — both right after the
lazy refill and right after a grant — still has tokens in
`[0, max_burst]`: the refill is capped at `max_burst` and a grant only
fires with at least one token, decrementing by exactly one. -/
theorem C10_rate_limiter (l : TranslationLimiter) (es : List ℚ)
    (hrate : 0 ≤ l.tokens_per_sec) (hl : TokensInRange l)
    (hes : ∀ e ∈ es, 0 ≤ e) :
    ∀ s ∈ acquireStates l es, TokensInRange s := by
  induction es generalizing l with
  | nil => intro s hs; simp [acquireStates] at hs
  | cons e es ih =>
    intro s hs
    have he : 0 ≤ e := hes e (by simp)
    have hr : TokensInRange (refill l e) := refill_range l e hrate he hl
    have hg : TokensInRange (grant (refill l e)).1 := grant_range _ hr
    have hrate' : 0 ≤ (grant (refill l e)).1.tokens_per_sec := by
      rw [(grant_fields _).1, (refill_fields _ _).1]; exact hrate
    simp only [acquireStates, List.mem_cons] at hs
    rcases hs with rfl | rfl | hs
    · exact hr
    · exact hg
    · exact ih _ hrate' hg (fun e' he' => hes e' (List.mem_cons_of_mem _ he')) s hs

/-- Witness for C10: the limiter constructed by
`TranslationLimiter::new()` on a concrete attempt sequence. -/
theorem C10_rate_limiter_witness :
    (0 ≤ TranslationLimiter.new.tokens_per_sec) ∧
      TokensInRange TranslationLimiter.new ∧
      (∀ e ∈ ([0, 3, 7] : List ℚ), 0 ≤ e) ∧
      ∀ s ∈ acquireStates TranslationLimiter.new [0, 3, 7], TokensInRange s := by
  have h1 : (0 : ℚ) ≤ TranslationLimiter.new.tokens_per_sec := by
    norm_num [TranslationLimiter.new]
  have h2 : TokensInRange TranslationLimiter.new := by
    constructor <;> norm_num [TranslationLimiter.new]
  have h3 : ∀ e ∈ ([0, 3, 7] : List ℚ), 0 ≤ e := by
    intro e he
    fin_cases he <;> norm_num
  exact ⟨h1, h2, h3, C10_rate_limiter TranslationLimiter.new [0, 3, 7] h1 h2 h3⟩

/-! ## Claim C2 -/

theorem mem_toTranslate_values (m : KVMap) (src : KVMap) (s : String) :
    s ∈ (toTranslatePairs m src).map Prod.snd ↔
      (∃ k, (k, s) ∈ src) ∧ lookupKV m s = none := by
  simp only [toTranslatePairs, List.mem_map, List.mem_filter]
  constructor
  · rintro ⟨⟨k, v⟩, ⟨hmem, hnone⟩, rfl⟩
    exact ⟨⟨k, hmem⟩, Option.isNone_iff_eq_none.mp hnone⟩
  · rintro ⟨⟨k, hk⟩, hnone⟩
    exact ⟨(k, s), ⟨hk, by simp [hnone]⟩, rfl⟩

/-- C2: with caching enabled, for a target language `t` and a source
entry `(k, s)`, the text `s` is in the value list sent to the provider
iff the loaded cache's sub-map for `t` has no entry for `s`; and
consequently, once a run has left `s` cached for `t` (its lookup in the
updated data returns `some v`), a subsequent run's partition does not
include `s` in the list sent to the provider. -/
theorem C2_cache_soundness (data : LangData) (src : KVMap) (t s : String) :
    ((∃ k, (k, s) ∈ src) →
      (s ∈ (toTranslatePairs ((lookupLD data t).getD []) src).map Prod.snd ↔
        lookupKV ((lookupLD data t).getD []) s = none)) ∧
    (∀ tdata data' w src' v k,
      processTargetCached tdata data src t = .ok (data', w) →
      lookupKV ((lookupLD data' t).getD []) s = some v →
      (k, s) ∈ src' →
      s ∉ (toTranslatePairs ((lookupLD data' t).getD []) src').map Prod.snd) := by
  constructor
  · intro hex
    rw [mem_toTranslate_values]
    exact ⟨fun h => h.2, fun h => ⟨hex, h⟩⟩
  · intro tdata data' w src' v k hrun hv hk
    rw [mem_toTranslate_values]
    rintro ⟨-, hnone⟩
    rw [hv] at hnone
    cases hnone

/-- Witness for C2: an empty cache, a one-entry source locale and a
constant provider; the first run caches the translation, after which the
partition for a second run over the updated data no longer contains the
text. -/
theorem C2_cache_soundness_witness :
    ((∃ k, (k, "hello") ∈ ([("k", "hello")] : KVMap))) ∧
    ("hello" ∈ (toTranslatePairs ((lookupLD ([] : LangData) "fr").getD [])
        [("k", "hello")]).map Prod.snd ↔
      lookupKV ((lookupLD ([] : LangData) "fr").getD []) "hello" = none) ∧
    (processTargetCached (fun _ vals => .ok (vals.map (fun _ => "bonjour")))
        ([] : LangData) [("k", "hello")] "fr" =
      .ok ([("fr", [("hello", "bonjour")])], some [("k", "bonjour")])) ∧
    (lookupKV ((lookupLD ([("fr", [("hello", "bonjour")])] : LangData) "fr").getD [])
        "hello" = some "bonjour") ∧
    ("hello" ∉ (toTranslatePairs
        ((lookupLD ([("fr", [("hello", "bonjour")])] : LangData) "fr").getD [])
        [("k", "hello")]).map Prod.snd) := by
  refine ⟨⟨"k", by decide⟩, ?_, by decide, by decide, ?_⟩
  · exact (C2_cache_soundness [] [("k", "hello")] "fr" "hello").1 ⟨"k", by decide⟩
  · exact (C2_cache_soundness [] [("k", "hello")] "fr" "hello").2
      (fun _ vals => .ok (vals.map (fun _ => "bonjour")))
      [("fr", [("hello", "bonjour")])] (some [("k", "bonjour")])
      [("k", "hello")] "bonjour" "k" (by decide) (by decide) (by decide)

/-! ## Claims C5 and C8 -/

/-- C5: when the provider returns a number of translations different
from the number requested for a target language, the orchestrator skips
that language — no locale file is written for it and the cache data is
left exactly as it was — and continues with the next target language
(one `translate_data` call was still made); and whenever the target loop
completes without a provider error, the run persists the cache at the
end and returns `Ok`. -/
theorem C5_count_mismatch :
    (∀ tdata data src t tv,
      tdata t ((toTranslatePairs ((lookupLD data t).getD []) src).map Prod.snd) =
          .ok tv →
      tv.length ≠ (toTranslatePairs ((lookupLD data t).getD []) src).length →
      processTargetCached tdata data src t = .ok (data, none)) ∧
    (∀ tdata data src t rest tv,
      tdata t ((toTranslatePairs ((lookupLD data t).getD []) src).map Prod.snd) =
          .ok tv →
      tv.length ≠ (toTranslatePairs ((lookupLD data t).getD []) src).length →
      (processTargetsCached tdata data src (t :: rest)).res =
          (processTargetsCached tdata data src rest).res ∧
        (processTargetsCached tdata data src (t :: rest)).calls =
          (processTargetsCached tdata data src rest).calls + 1) ∧
    (∀ tdata src t tv,
      tdata t (src.map Prod.snd) = .ok tv → tv.length ≠ src.length →
      processTargetUncached tdata src t = .ok none) ∧
    (∀ tdata hash loadSrc config dir cacheFile dir1 file1 vres cs sd0 d' ws,
      verifyLocales dir cacheFile config.source_locale config.target_locales =
          (dir1, file1, vres) →
      config.target_locales ≠ [] →
      isMatchSha256 hash dir1 config.source_locale (file1.sha256.getD "") = cs →
      (cs.isSome ||
        (match vres with | .error _ => true | .ok _ => false)) = true →
      loadSrc dir1 config.source_locale = some sd0 →
      (if config.use_cache then
          processTargetsCached tdata file1.data (removeKV sd0 "_version")
            config.target_locales
        else
          processTargetsUncached tdata file1.data (removeKV sd0 "_version")
            config.target_locales).res = .ok (d', ws) →
      (translateRun tdata hash loadSrc config dir cacheFile).result = .ok () ∧
        (translateRun tdata hash loadSrc config dir cacheFile).endPersist = true ∧
        (translateRun tdata hash loadSrc config dir cacheFile).cacheFile =
          { sha256 := cs, data := d' } ∧
        (translateRun tdata hash loadSrc config dir cacheFile).written = ws) := by
  have part1 : ∀ tdata data src t tv,
      tdata t ((toTranslatePairs ((lookupLD data t).getD []) src).map Prod.snd) =
          .ok tv →
      tv.length ≠ (toTranslatePairs ((lookupLD data t).getD []) src).length →
      processTargetCached tdata data src t = .ok (data, none) := by
    intro tdata data src t tv htv hne
    simp only [processTargetCached, htv]
    rw [if_neg (by simpa [List.length_map] using hne)]
  refine ⟨part1, ?_, ?_, ?_⟩
  · intro tdata data src t rest tv htv hne
    simp only [processTargetsCached, part1 tdata data src t tv htv hne]
    cases (processTargetsCached tdata data src rest).res <;> simp
  · intro tdata src t tv htv hne
    simp only [processTargetUncached, htv]
    rw [if_neg (by simpa [List.length_map] using hne)]
  · intro tdata hash loadSrc config dir cacheFile dir1 file1 vres cs sd0 d' ws
      hverify htne hsha hgate hload hproc
    refine ⟨?_, ?_, ?_, ?_⟩ <;>
      simp only [translateRun, hverify, if_neg htne, hsha, hgate, hload,
        Bool.if_true_left, if_true, hproc]

/-- Provider stub for the C5 witness: returns an empty batch (a count
mismatch) for target `de` and a correct one-per-input batch otherwise. -/
def mismatchProviderC5 : String → List String → Except String (List String) :=
  fun t vals => if t = "de" then .ok [] else .ok (vals.map (fun _ => "bonjour"))

/-- Locale directory for the C5 witness. -/
def dirC5 : Dir := ⟨[⟨"en", "json", "hello"⟩, ⟨"de", "json", ""⟩, ⟨"fr", "json", ""⟩]⟩

/-- Configuration for the C5 witness. -/
def configC5 : ConfigM := ⟨"en", ["de", "fr"], true⟩

/-- Witness for C5: a two-target run in which the provider mismatches
the count for `de` and answers correctly for `fr`; `de` is skipped with
the cache untouched, the loop continues, and the run persists and
returns `Ok`. -/
theorem C5_count_mismatch_witness :
    (mismatchProviderC5 "de" ((toTranslatePairs ((lookupLD ([] : LangData) "de").getD [])
        [("k", "hello")]).map Prod.snd) = .ok []) ∧
    (([] : List String).length ≠
      (toTranslatePairs ((lookupLD ([] : LangData) "de").getD []) [("k", "hello")]).length) ∧
    (processTargetCached mismatchProviderC5 [] [("k", "hello")] "de" = .ok ([], none)) ∧
    ((processTargetsCached mismatchProviderC5 [] [("k", "hello")] ["de", "fr"]).res =
        (processTargetsCached mismatchProviderC5 [] [("k", "hello")] ["fr"]).res ∧
      (processTargetsCached mismatchProviderC5 [] [("k", "hello")] ["de", "fr"]).calls =
        (processTargetsCached mismatchProviderC5 [] [("k", "hello")] ["fr"]).calls + 1) ∧
    (processTargetUncached mismatchProviderC5 [("k", "hello")] "de" = .ok none) ∧
    (verifyLocales dirC5 ⟨none, []⟩ configC5.source_locale configC5.target_locales =
      (dirC5, ⟨none, []⟩, .ok ())) ∧
    (configC5.target_locales ≠ []) ∧
    (isMatchSha256 (fun _ : String => some "H") dirC5 configC5.source_locale
      ((Autogen.mk none []).sha256.getD "") = some "H") ∧
    (((some "H" : Option String).isSome ||
      (match (Except.ok () : Except String Unit) with
       | .error _ => true | .ok _ => false)) = true) ∧
    ((fun (_ : Dir) (_ : String) => some ([("k", "hello")] : KVMap)) dirC5
      configC5.source_locale = some [("k", "hello")]) ∧
    ((if configC5.use_cache then
        processTargetsCached mismatchProviderC5 (Autogen.mk none []).data
          (removeKV [("k", "hello")] "_version") configC5.target_locales
      else
        processTargetsUncached mismatchProviderC5 (Autogen.mk none []).data
          (removeKV [("k", "hello")] "_version") configC5.target_locales).res =
      .ok ([("fr", [("hello", "bonjour")])], [("fr", [("k", "bonjour")])])) ∧
    ((translateRun mismatchProviderC5 (fun _ : String => some "H")
        (fun (_ : Dir) (_ : String) => some ([("k", "hello")] : KVMap))
        configC5 dirC5 ⟨none, []⟩).result = .ok () ∧
      (translateRun mismatchProviderC5 (fun _ : String => some "H")
        (fun (_ : Dir) (_ : String) => some ([("k", "hello")] : KVMap))
        configC5 dirC5 ⟨none, []⟩).endPersist = true ∧
      (translateRun mismatchProviderC5 (fun _ : String => some "H")
        (fun (_ : Dir) (_ : String) => some ([("k", "hello")] : KVMap))
        configC5 dirC5 ⟨none, []⟩).cacheFile =
        { sha256 := some "H", data := [("fr", [("hello", "bonjour")])] } ∧
      (translateRun mismatchProviderC5 (fun _ : String => some "H")
        (fun (_ : Dir) (_ : String) => some ([("k", "hello")] : KVMap))
        configC5 dirC5 ⟨none, []⟩).written = [("fr", [("k", "bonjour")])]) := by
  refine ⟨by decide, by decide,
    C5_count_mismatch.1 mismatchProviderC5 [] [("k", "hello")] "de" []
      (by decide) (by decide),
    C5_count_mismatch.2.1 mismatchProviderC5 [] [("k", "hello")] "de" ["fr"] []
      (by decide) (by decide),
    C5_count_mismatch.2.2.1 mismatchProviderC5 [("k", "hello")] "de" []
      (by decide) (by decide),
    by decide, by decide, by decide, by decide, by decide, by decide,
    C5_count_mismatch.2.2.2 mismatchProviderC5 (fun _ : String => some "H")
      (fun (_ : Dir) (_ : String) => some ([("k", "hello")] : KVMap))
      configC5 dirC5 ⟨none, []⟩ dirC5 ⟨none, []⟩ (.ok ()) (some "H")
      [("k", "hello")] [("fr", [("hello", "bonjour")])]
      [("fr", [("k", "bonjour")])]
      (by decide) (by decide) (by decide) (by decide) (by decide) (by decide)⟩

/-- C8: a failing provider call for a target language — including a
language-normalization failure inside `translate_data` — is propagated:
it aborts the target loop at that language, becomes the run's terminal
result, and the end-of-run persist step is never reached, so the
persisted cache file still holds exactly what it held before the
translating phase began (in particular neither the new checksum nor any
translations produced earlier in the same run). -/
theorem C8_provider_error_aborts :
    (∀ net p (vals : List String) s t e, normalize_lang p s = .error e →
      translateData net p vals s t = .error e) ∧
    (∀ net p (vals : List String) s t ns e, normalize_lang p s = .ok ns →
      normalize_lang p t = .error e →
      translateData net p vals s t = .error e) ∧
    (∀ tdata data src t e,
      tdata t ((toTranslatePairs ((lookupLD data t).getD []) src).map Prod.snd) =
          .error e →
      processTargetCached tdata data src t = .error e) ∧
    (∀ tdata data src t rest e,
      processTargetCached tdata data src t = .error e →
      processTargetsCached tdata data src (t :: rest) =
        { calls := 1, res := .error e }) ∧
    (∀ tdata hash loadSrc config dir cacheFile dir1 file1 vres cs sd0 e,
      verifyLocales dir cacheFile config.source_locale config.target_locales =
          (dir1, file1, vres) →
      config.target_locales ≠ [] →
      isMatchSha256 hash dir1 config.source_locale (file1.sha256.getD "") = cs →
      (cs.isSome ||
        (match vres with | .error _ => true | .ok _ => false)) = true →
      loadSrc dir1 config.source_locale = some sd0 →
      (if config.use_cache then
          processTargetsCached tdata file1.data (removeKV sd0 "_version")
            config.target_locales
        else
          processTargetsUncached tdata file1.data (removeKV sd0 "_version")
            config.target_locales).res = .error e →
      (translateRun tdata hash loadSrc config dir cacheFile).result = .error e ∧
        (translateRun tdata hash loadSrc config dir cacheFile).endPersist = false ∧
        (translateRun tdata hash loadSrc config dir cacheFile).cacheFile = file1) := by
  refine ⟨?_, ?_, ?_, ?_, ?_⟩
  · intro net p vals s t e hs
    simp [translateData, hs, Bind.bind, Except.bind]
  · intro net p vals s t ns e hs ht
    simp [translateData, hs, ht, Bind.bind, Except.bind]
  · intro tdata data src t e htd
    simp only [processTargetCached, htd]
  · intro tdata data src t rest e hpt
    simp only [processTargetsCached, hpt]
  · intro tdata hash loadSrc config dir cacheFile dir1 file1 vres cs sd0 e
      hverify htne hsha hgate hload hproc
    refine ⟨?_, ?_, ?_⟩ <;>
      simp only [translateRun, hverify, if_neg htne, hsha, hgate, hload,
        Bool.if_true_left, if_true, hproc]

/-- Provider stub for the C8 witness: fails for target `de`. -/
def failProviderC8 : String → List String → Except String (List String) :=
  fun t vals =>
    if t = "de" then .error "boom" else .ok (vals.map (fun _ => "bonjour"))

/-- Witness for C8: a run over targets `de, fr` whose provider fails on
`de`; the loop aborts with one call, the run errors and the persisted
cache file is exactly the pre-translation one. -/
theorem C8_provider_error_aborts_witness :
    (normalize_lang .GOOGLE "xx-yy" = .error "xx-yy") ∧
    (translateData (fun _ _ texts => .ok texts) .GOOGLE ["hello"] "xx-yy" "fr" =
      .error "xx-yy") ∧
    (normalize_lang .GOOGLE "en" = .ok "en") ∧
    (translateData (fun _ _ texts => .ok texts) .GOOGLE ["hello"] "en" "xx-yy" =
      .error "xx-yy") ∧
    (failProviderC8 "de" ((toTranslatePairs ((lookupLD ([] : LangData) "de").getD [])
        [("k", "hello")]).map Prod.snd) = .error "boom") ∧
    (processTargetCached failProviderC8 [] [("k", "hello")] "de" = .error "boom") ∧
    (processTargetsCached failProviderC8 [] [("k", "hello")] ["de", "fr"] =
      { calls := 1, res := .error "boom" }) ∧
    (verifyLocales dirC5 ⟨none, []⟩ "en" ["de", "fr"] = (dirC5, ⟨none, []⟩, .ok ())) ∧
    ((if (ConfigM.mk "en" ["de", "fr"] true).use_cache then
        processTargetsCached failProviderC8 (Autogen.mk none []).data
          (removeKV [("k", "hello")] "_version") ["de", "fr"]
      else
        processTargetsUncached failProviderC8 (Autogen.mk none []).data
          (removeKV [("k", "hello")] "_version") ["de", "fr"]).res =
      .error "boom") ∧
    ((translateRun failProviderC8 (fun _ : String => some "H")
        (fun (_ : Dir) (_ : String) => some ([("k", "hello")] : KVMap))
        ⟨"en", ["de", "fr"], true⟩ dirC5 ⟨none, []⟩).result = .error "boom" ∧
      (translateRun failProviderC8 (fun _ : String => some "H")
        (fun (_ : Dir) (_ : String) => some ([("k", "hello")] : KVMap))
        ⟨"en", ["de", "fr"], true⟩ dirC5 ⟨none, []⟩).endPersist = false ∧
      (translateRun failProviderC8 (fun _ : String => some "H")
        (fun (_ : Dir) (_ : String) => some ([("k", "hello")] : KVMap))
        ⟨"en", ["de", "fr"], true⟩ dirC5 ⟨none, []⟩).cacheFile = ⟨none, []⟩) := by
  refine ⟨by decide,
    C8_provider_error_aborts.1 (fun _ _ texts => .ok texts) .GOOGLE ["hello"]
      "xx-yy" "fr" "xx-yy" (by decide),
    by decide,
    C8_provider_error_aborts.2.1 (fun _ _ texts => .ok texts) .GOOGLE ["hello"]
      "en" "xx-yy" "en" "xx-yy" (by decide) (by decide),
    by decide,
    C8_provider_error_aborts.2.2.1 failProviderC8 [] [("k", "hello")] "de" "boom"
      (by decide),
    C8_provider_error_aborts.2.2.2.1 failProviderC8 [] [("k", "hello")] "de"
      ["fr"] "boom" (by decide),
    by decide, by decide,
    C8_provider_error_aborts.2.2.2.2 failProviderC8 (fun _ : String => some "H")
      (fun (_ : Dir) (_ : String) => some ([("k", "hello")] : KVMap))
      ⟨"en", ["de", "fr"], true⟩ dirC5 ⟨none, []⟩ dirC5 ⟨none, []⟩ (.ok ())
      (some "H") [("k", "hello")] "boom"
      (by decide) (by decide) (by decide) (by decide) (by decide) (by decide)⟩

/-! ## Claim C6: lemmas about the reconciler -/

theorem lookupLD_eq_none_of_not_mem (d : LangData) (k : String)
    (h : k ∉ d.map Prod.fst) : lookupLD d k = none := by
  induction d with
  | nil => rfl
  | cons a rest ih =>
    simp only [List.map_cons, List.mem_cons, not_or] at h
    cases a with
    | mk a1 a2 =>
      simp only [lookupLD]
      rw [if_neg (fun e => h.1 e.symm), ih h.2]

theorem removeLD_keys_sublist (d : LangData) (k : String) :
    ((removeLD d k).map Prod.fst).Sublist (d.map Prod.fst) := by
  induction d with
  | nil => simp [removeLD]
  | cons a rest ih =>
    by_cases h : a.1 = k
    · simp only [removeLD]
      rw [if_pos (by cases a; exact h)]
      exact (List.sublist_cons_self _ _)
    · simp only [removeLD]
      rw [if_neg (by cases a; exact h)]
      simpa using ih.cons₂ a.1

theorem lookupLD_removeLD_self (d : LangData) (k : String)
    (hnd : (d.map Prod.fst).Nodup) : lookupLD (removeLD d k) k = none := by
  induction d with
  | nil => rfl
  | cons a rest ih =>
    simp only [List.map_cons, List.nodup_cons] at hnd
    by_cases h : a.1 = k
    · simp only [removeLD]
      rw [if_pos (by cases a; exact h)]
      exact lookupLD_eq_none_of_not_mem rest k (h ▸ hnd.1)
    · simp only [removeLD]
      rw [if_neg (by cases a; exact h)]
      cases a with
      | mk a1 a2 =>
        simp only [lookupLD, if_neg h]
        exact ih hnd.2

theorem lookupLD_removeLD_ne (d : LangData) (k k' : String) (h : k' ≠ k) :
    lookupLD (removeLD d k) k' = lookupLD d k' := by
  induction d with
  | nil => rfl
  | cons a rest ih =>
    by_cases ha : a.1 = k
    · simp only [removeLD]
      rw [if_pos (by cases a; exact ha)]
      cases a with
      | mk a1 a2 =>
        simp only [lookupLD]
        rw [if_neg (fun e => h (e.symm.trans ha))]
    · simp only [removeLD]
      rw [if_neg (by cases a; exact ha)]
      cases a with
      | mk a1 a2 =>
        simp only [lookupLD, ih]

theorem nodup_keys_removeLD (d : LangData) (k : String)
    (hnd : (d.map Prod.fst).Nodup) : ((removeLD d k).map Prod.fst).Nodup :=
  hnd.sublist (removeLD_keys_sublist d k)

/-- The keep-condition of the `verify_locales` directory loop: a file
survives iff it is one of the configured targets' files or the source
file. -/
def keepEnt (targets_with_ext : List String) (source_filename : String)
    (f : FileEnt) : Bool :=
  targets_with_ext.contains f.name || f.name == source_filename

theorem verifyLoop_kept (twe : List String) (sfn : String) :
    ∀ (entries : List FileEnt) (cache : Autogen),
      (verifyLoop twe sfn entries cache).1 = entries.filter (keepEnt twe sfn) := by
  intro entries
  induction entries with
  | nil => intro cache; rfl
  | cons f rest ih =>
    intro cache
    by_cases h : ¬ twe.contains f.name ∧ f.name ≠ sfn
    · simp only [verifyLoop, if_pos h, ih]
      rw [List.filter_cons_of_neg]
      simp only [keepEnt, Bool.or_eq_true, beq_iff_eq, not_or]
      exact ⟨by simpa using h.1, h.2⟩
    · simp only [verifyLoop, if_neg h, ih]
      rw [List.filter_cons_of_pos]
      simp only [keepEnt, Bool.or_eq_true, beq_iff_eq]
      rcases not_and_or.mp h with h1 | h2
      · exact Or.inl (by simpa using h1)
      · exact Or.inr (by simpa using h2)

theorem verifyLoop_names (twe : List String) (sfn : String) :
    ∀ (entries : List FileEnt) (cache : Autogen),
      (verifyLoop twe sfn entries cache).2.1 =
        (entries.filter (keepEnt twe sfn)).map FileEnt.name := by
  intro entries
  induction entries with
  | nil => intro cache; rfl
  | cons f rest ih =>
    intro cache
    by_cases h : ¬ twe.contains f.name ∧ f.name ≠ sfn
    · simp only [verifyLoop, if_pos h, ih]
      rw [List.filter_cons_of_neg]
      simp only [keepEnt, Bool.or_eq_true, beq_iff_eq, not_or]
      exact ⟨by simpa using h.1, h.2⟩
    · simp only [verifyLoop, if_neg h, ih]
      rw [List.filter_cons_of_pos]
      · simp
      · simp only [keepEnt, Bool.or_eq_true, beq_iff_eq]
        rcases not_and_or.mp h with h1 | h2
        · exact Or.inl (by simpa using h1)
        · exact Or.inr (by simpa using h2)

theorem verifyLoop_sha (twe : List String) (sfn : String) :
    ∀ (entries : List FileEnt) (cache : Autogen),
      (verifyLoop twe sfn entries cache).2.2.sha256 = cache.sha256 := by
  intro entries
  induction entries with
  | nil => intro cache; rfl
  | cons f rest ih =>
    intro cache
    by_cases h : ¬ twe.contains f.name ∧ f.name ≠ sfn
    · simp only [verifyLoop, if_pos h]
      exact ih _
    · simp only [verifyLoop, if_neg h]
      exact ih _

theorem verifyLoop_data (twe : List String) (sfn : String) :
    ∀ (entries : List FileEnt) (cache : Autogen) (lang : String),
      (cache.data.map Prod.fst).Nodup →
      lookupLD (verifyLoop twe sfn entries cache).2.2.data lang =
        if ((entries.filter (fun f => !(keepEnt twe sfn f))).map
            FileEnt.stem).contains lang then none
        else lookupLD cache.data lang := by
  intro entries
  induction entries with
  | nil => intro cache lang _; simp [verifyLoop]
  | cons f rest ih =>
    intro cache lang hnd
    by_cases h : ¬ twe.contains f.name ∧ f.name ≠ sfn
    · have hkeep : keepEnt twe sfn f = false := by
        simp only [keepEnt, Bool.or_eq_false_iff, beq_eq_false_iff_ne]
        exact ⟨by simpa using h.1, h.2⟩
      simp only [verifyLoop, if_pos h]
      rw [ih _ lang (by simpa using nodup_keys_removeLD cache.data f.stem hnd)]
      rw [List.filter_cons_of_pos (by simp [hkeep])]
      by_cases hl : lang ∈ (rest.filter (fun g => !(keepEnt twe sfn g))).map FileEnt.stem
      · simp [hl]
      · by_cases he : f.stem = lang
        · subst he
          simp only [List.map_cons, List.contains_cons, beq_self_eq_true,
            Bool.true_or, if_true]
          rw [if_neg (by simpa using hl)]
          exact lookupLD_removeLD_self cache.data f.stem hnd
        · have hne : (lang == f.stem) = false := by
            simp only [beq_eq_false_iff_ne, ne_eq]
            exact fun e => he e.symm
          simp only [List.map_cons, List.contains_cons, hne, Bool.false_or]
          rw [if_neg (by simpa using hl), if_neg (by simpa using hl)]
          exact lookupLD_removeLD_ne cache.data f.stem lang (fun e => he e.symm)
    · have hkeep : keepEnt twe sfn f = true := by
        simp only [keepEnt, Bool.or_eq_true, beq_iff_eq]
        rcases not_and_or.mp h with h1 | h2
        · exact Or.inl (by simpa using h1)
        · exact Or.inr (by simpa using h2)
      simp only [verifyLoop, if_neg h]
      rw [ih _ lang hnd]
      rw [List.filter_cons_of_neg (by simp [hkeep])]

theorem find_filter_keep {α : Type} (p q : α → Bool) (l : List α) (f : α)
    (hf : l.find? p = some f) (hq : q f = true) :
    (l.filter q).find? p = some f := by
  induction l with
  | nil => cases hf
  | cons a rest ih =>
    by_cases hpa : p a
    · have haf : a = f := by
        rw [List.find?_cons_of_pos _ hpa] at hf
        exact Option.some.inj hf
      subst haf
      rw [List.filter_cons_of_pos hq, List.find?_cons_of_pos _ hpa]
    · rw [List.find?_cons_of_neg _ hpa] at hf
      by_cases hqa : q a
      · rw [List.filter_cons_of_pos hqa, List.find?_cons_of_neg _ hpa]
        exact ih hf
      · rw [List.filter_cons_of_neg hqa]
        exact ih hf

theorem mem_names_filter_keep (twe : List String) (sfn : String)
    (entries : List FileEnt) (w : String) (hw : w ∈ twe) :
    w ∈ (entries.filter (keepEnt twe sfn)).map FileEnt.name ↔
      w ∈ entries.map FileEnt.name := by
  constructor
  · intro h
    rcases List.mem_map.mp h with ⟨e, he, rfl⟩
    exact List.mem_map.mpr ⟨e, (List.mem_filter.mp he).1, rfl⟩
  · intro h
    rcases List.mem_map.mp h with ⟨e, he, rfl⟩
    refine List.mem_map.mpr ⟨e, List.mem_filter.mpr ⟨he, ?_⟩, rfl⟩
    simp only [keepEnt, Bool.or_eq_true, beq_iff_eq]
    exact Or.inl (by simpa using hw)

/-- C6: given that the source-language file is found (which fixes the
extension), reconciliation (a) keeps exactly the files named
`target.ext` for a configured target or named like the source file and
deletes every other file, (b) leaves the stored checksum alone, purges
exactly the deleted files' stems from the persisted cache data, and
(c) reports the `Mismatch` error exactly when some configured target's
file is absent from the directory, succeeding otherwise. -/
theorem C6_reconciliation (dir : Dir) (cacheFile : Autogen) (source : String)
    (targets : List String) (f : FileEnt)
    (hsrc : getSourceFilePath dir source = some f)
    (hnd : (cacheFile.data.map Prod.fst).Nodup) :
    ((verifyLocales dir cacheFile source targets).1.entries =
      dir.entries.filter
        (keepEnt (targets.map (fun t => t ++ "." ++ f.extD)) f.name)) ∧
    ((verifyLocales dir cacheFile source targets).2.1.sha256 = cacheFile.sha256) ∧
    (∀ lang, lookupLD (verifyLocales dir cacheFile source targets).2.1.data lang =
      if ((dir.entries.filter (fun e =>
          !(keepEnt (targets.map (fun t => t ++ "." ++ f.extD)) f.name e))).map
            FileEnt.stem).contains lang then none
      else lookupLD cacheFile.data lang) ∧
    ((verifyLocales dir cacheFile source targets).2.2 =
        .error "Files mismatch..retranslate" ↔
      ∃ t ∈ targets, (t ++ "." ++ f.extD) ∉ dir.entries.map FileEnt.name) ∧
    ((∀ t ∈ targets, (t ++ "." ++ f.extD) ∈ dir.entries.map FileEnt.name) →
      (verifyLocales dir cacheFile source targets).2.2 = .ok ()) := by
  have hmain : verifyLocales dir cacheFile source targets =
      (⟨(verifyLoop (targets.map (fun t => t ++ "." ++ f.extD)) f.name
          dir.entries cacheFile).1⟩,
        (verifyLoop (targets.map (fun t => t ++ "." ++ f.extD)) f.name
          dir.entries cacheFile).2.2,
        if (targets.map (fun t => t ++ "." ++ f.extD)).any (fun t =>
            !((verifyLoop (targets.map (fun t => t ++ "." ++ f.extD)) f.name
                dir.entries cacheFile).2.1.contains t)) then
          .error "Files mismatch..retranslate"
        else .ok ()) := by
    rw [verifyLocales, hsrc]
  have hiff : ((targets.map (fun t => t ++ "." ++ f.extD)).any (fun t =>
      !((verifyLoop (targets.map (fun t => t ++ "." ++ f.extD)) f.name
          dir.entries cacheFile).2.1.contains t)) = true) ↔
      ∃ t ∈ targets, (t ++ "." ++ f.extD) ∉ dir.entries.map FileEnt.name := by
    rw [List.any_eq_true]
    constructor
    · rintro ⟨w, hwmem, hw⟩
      rcases List.mem_map.mp hwmem with ⟨t, ht, rfl⟩
      refine ⟨t, ht, fun hcon => ?_⟩
      rw [verifyLoop_names] at hw
      have hw' : (t ++ "." ++ f.extD) ∉
          (dir.entries.filter (keepEnt (targets.map (fun t => t ++ "." ++ f.extD))
            f.name)).map FileEnt.name := by simpa using hw
      exact hw' ((mem_names_filter_keep _ f.name dir.entries _ hwmem).mpr hcon)
    · rintro ⟨t, ht, hab⟩
      refine ⟨t ++ "." ++ f.extD, List.mem_map.mpr ⟨t, ht, rfl⟩, ?_⟩
      rw [verifyLoop_names]
      have : (t ++ "." ++ f.extD) ∉
          (dir.entries.filter (keepEnt (targets.map (fun t => t ++ "." ++ f.extD))
            f.name)).map FileEnt.name := fun hcon =>
        hab ((mem_names_filter_keep _ f.name dir.entries _
          (List.mem_map.mpr ⟨t, ht, rfl⟩)).mp hcon)
      simpa using this
  refine ⟨?_, ?_, ?_, ?_, ?_⟩
  · rw [hmain]
    exact verifyLoop_kept _ _ _ _
  · rw [hmain]
    exact verifyLoop_sha _ _ _ _
  · intro lang
    rw [hmain]
    exact verifyLoop_data _ _ _ _ lang hnd
  · rw [hmain]
    simp only []
    constructor
    · intro h
      by_cases hb : (targets.map (fun t => t ++ "." ++ f.extD)).any (fun t =>
          !((verifyLoop (targets.map (fun t => t ++ "." ++ f.extD)) f.name
              dir.entries cacheFile).2.1.contains t)) = true
      · exact hiff.mp hb
      · rw [if_neg hb] at h
        cases h
    · intro h
      rw [if_pos (hiff.mpr h)]
  · intro h
    rw [hmain]
    rw [if_neg]
    intro hb
    rcases hiff.mp hb with ⟨t, ht, hab⟩
    exact hab (h t ht)

/-- Locale directory for the C6 witness: source `en.json` plus target
files `fr.json` and `de.json`. -/
def dirC6 : Dir := ⟨[⟨"en", "json", "hello"⟩, ⟨"fr", "json", "f"⟩, ⟨"de", "json", "d"⟩]⟩

/-- Persisted cache for the C6 witness, holding data for `de` and `fr`. -/
def cacheC6 : Autogen :=
  ⟨some "h1", [("de", [("Hello", "Hallo")]), ("fr", [("Hello", "Bonjour")])]⟩

/-- Witness for C6: with files `en.json, fr.json, de.json` and targets
`fr, es`, reconciliation deletes `de.json`, purges `de` from the cache,
keeps `fr`'s data and the checksum, and reports the mismatch because
`es.json` is absent. -/
theorem C6_reconciliation_witness :
    (getSourceFilePath dirC6 "en" = some ⟨"en", "json", "hello"⟩) ∧
    ((cacheC6.data.map Prod.fst).Nodup) ∧
    ((verifyLocales dirC6 cacheC6 "en" ["fr", "es"]).1.entries =
      [⟨"en", "json", "hello"⟩, ⟨"fr", "json", "f"⟩]) ∧
    ((verifyLocales dirC6 cacheC6 "en" ["fr", "es"]).2.1.sha256 = some "h1") ∧
    (lookupLD (verifyLocales dirC6 cacheC6 "en" ["fr", "es"]).2.1.data "de" = none) ∧
    (lookupLD (verifyLocales dirC6 cacheC6 "en" ["fr", "es"]).2.1.data "fr" =
      some [("Hello", "Bonjour")]) ∧
    ((verifyLocales dirC6 cacheC6 "en" ["fr", "es"]).2.2 =
      .error "Files mismatch..retranslate") ∧
    (∃ t ∈ (["fr", "es"] : List String),
      (t ++ "." ++ (FileEnt.mk "en" "json" "hello").extD) ∉
        dirC6.entries.map FileEnt.name) := by
  have hC6 := C6_reconciliation dirC6 cacheC6 "en" ["fr", "es"]
    ⟨"en", "json", "hello"⟩ (by decide) (by decide)
  refine ⟨by decide, by decide, ?_, ?_, ?_, ?_, ?_, by decide⟩
  · rw [hC6.1]; decide
  · rw [hC6.2.1]; decide
  · rw [hC6.2.2.1 "de"]; decide
  · rw [hC6.2.2.1 "fr"]; decide
  · exact (hC6.2.2.2.1).mpr (by decide)

/-! ## Claim C3: lemmas and theorem -/

theorem verifyLocales_entries (dir : Dir) (cacheFile : Autogen) (source : String)
    (targets : List String) (f : FileEnt)
    (hsrc : getSourceFilePath dir source = some f) :
    (verifyLocales dir cacheFile source targets).1.entries =
      dir.entries.filter
        (keepEnt (targets.map (fun t => t ++ "." ++ f.extD)) f.name) := by
  rw [verifyLocales, hsrc]
  exact verifyLoop_kept _ _ _ _

theorem verifyLocales_sha256 (dir : Dir) (cacheFile : Autogen) (source : String)
    (targets : List String) (f : FileEnt)
    (hsrc : getSourceFilePath dir source = some f) :
    (verifyLocales dir cacheFile source targets).2.1.sha256 =
      cacheFile.sha256 := by
  rw [verifyLocales, hsrc]
  exact verifyLoop_sha _ _ _ _

theorem verifyLocales_ok_iff (dir : Dir) (cacheFile : Autogen) (source : String)
    (targets : List String) (f : FileEnt)
    (hsrc : getSourceFilePath dir source = some f) :
    (verifyLocales dir cacheFile source targets).2.2 = .ok () ↔
      ∀ t ∈ targets,
        (t ++ "." ++ f.extD) ∈ dir.entries.map FileEnt.name := by
  rw [verifyLocales, hsrc]
  simp only []
  by_cases hb : (targets.map (fun t => t ++ "." ++ f.extD)).any (fun t =>
      !((verifyLoop (targets.map (fun t => t ++ "." ++ f.extD)) f.name
          dir.entries cacheFile).2.1.contains t)) = true
  · rw [if_pos hb]
    constructor
    · intro hcon; cases hcon
    · intro hall
      exfalso
      rw [List.any_eq_true] at hb
      rcases hb with ⟨w, hwmem, hw⟩
      rcases List.mem_map.mp hwmem with ⟨t, ht, rfl⟩
      rw [verifyLoop_names] at hw
      have hw' : (t ++ "." ++ f.extD) ∉
          (dir.entries.filter (keepEnt (targets.map (fun t => t ++ "." ++ f.extD))
            f.name)).map FileEnt.name := by simpa using hw
      exact hw' ((mem_names_filter_keep _ f.name dir.entries _ hwmem).mpr
        (hall t ht))
  · rw [if_neg hb]
    constructor
    · intro _ t ht
      have hb' : ∀ w ∈ targets.map (fun t => t ++ "." ++ f.extD),
          ¬ (!((verifyLoop (targets.map (fun t => t ++ "." ++ f.extD)) f.name
              dir.entries cacheFile).2.1.contains w)) = true := by
        intro w hw hcon
        exact hb (List.any_eq_true.mpr ⟨w, hw, hcon⟩)
      have hmem := hb' (t ++ "." ++ f.extD) (List.mem_map.mpr ⟨t, ht, rfl⟩)
      rw [verifyLoop_names] at hmem
      have hk : (t ++ "." ++ f.extD) ∈
          (dir.entries.filter (keepEnt (targets.map (fun t => t ++ "." ++ f.extD))
            f.name)).map FileEnt.name := by
        by_cases hx : (t ++ "." ++ f.extD) ∈
            (dir.entries.filter (keepEnt (targets.map (fun t => t ++ "." ++ f.extD))
              f.name)).map FileEnt.name
        · exact hx
        · exact absurd (by simpa using hx) hmem
      exact (mem_names_filter_keep _ f.name dir.entries _
        (List.mem_map.mpr ⟨t, ht, rfl⟩)).mp hk
    · intro _; rfl

theorem getSourceFilePath_verifyLocales (dir : Dir) (cacheFile : Autogen)
    (source : String) (targets : List String) (f : FileEnt)
    (hsrc : getSourceFilePath dir source = some f) :
    getSourceFilePath (verifyLocales dir cacheFile source targets).1 source =
      some f := by
  unfold getSourceFilePath at hsrc ⊢
  rw [verifyLocales_entries dir cacheFile source targets f
    (by unfold getSourceFilePath; exact hsrc)]
  exact find_filter_keep _ _ _ f hsrc (by simp [keepEnt])

/-- C3: immediately after a fully successful run — stored checksum equal
to the digest of the unchanged source file, every configured target's
file present on disk — a second run recomputes the same checksum
(`isMatchSha256` returns `none`), locale verification succeeds, and the
run exits in the `Skip` state with result `Ok`, zero `translate_data`
calls, and the stored checksum intact. -/
theorem C3_idempotence
    (tdata : String → List String → Except String (List String))
    (hash : String → Option String) (loadSrc : Dir → String → Option KVMap)
    (config : ConfigM) (dir : Dir) (cacheFile : Autogen) (f : FileEnt)
    (h : String)
    (hsrc : getSourceFilePath dir config.source_locale = some f)
    (hhash : hash f.content = some h)
    (hstored : cacheFile.sha256 = some h)
    (htargets : config.target_locales ≠ [])
    (hall : ∀ t ∈ config.target_locales,
      (t ++ "." ++ f.extD) ∈ dir.entries.map FileEnt.name) :
    isMatchSha256 hash
        (verifyLocales dir cacheFile config.source_locale config.target_locales).1
        config.source_locale
        ((verifyLocales dir cacheFile config.source_locale
          config.target_locales).2.1.sha256.getD "") = none ∧
    (verifyLocales dir cacheFile config.source_locale
      config.target_locales).2.2 = .ok () ∧
    (translateRun tdata hash loadSrc config dir cacheFile).state = .skip ∧
    (translateRun tdata hash loadSrc config dir cacheFile).result = .ok () ∧
    (translateRun tdata hash loadSrc config dir cacheFile).calls = 0 ∧
    (translateRun tdata hash loadSrc config dir cacheFile).cacheFile.sha256 =
      some h := by
  have hsha := verifyLocales_sha256 dir cacheFile config.source_locale
    config.target_locales f hsrc
  have hok := (verifyLocales_ok_iff dir cacheFile config.source_locale
    config.target_locales f hsrc).mpr hall
  have hsrc1 := getSourceFilePath_verifyLocales dir cacheFile
    config.source_locale config.target_locales f hsrc
  have hnone0 : isMatchSha256 hash
      (verifyLocales dir cacheFile config.source_locale config.target_locales).1
      config.source_locale h = none := by
    rw [isMatchSha256, hsrc1]
    simp [hhash]
  have hnone : isMatchSha256 hash
      (verifyLocales dir cacheFile config.source_locale config.target_locales).1
      config.source_locale
      ((verifyLocales dir cacheFile config.source_locale
        config.target_locales).2.1.sha256.getD "") = none := by
    rw [hsha, hstored]
    simpa using hnone0
  refine ⟨hnone, hok, ?_, ?_, ?_, ?_⟩ <;>
    simp [translateRun, if_neg htargets, hnone, hnone0, hok, hsha, hstored]

/-- Locale directory for the C3 witness: the state right after a fully
successful run over target `fr`. -/
def dirC3 : Dir := ⟨[⟨"en", "json", "hello"⟩, ⟨"fr", "json", "x"⟩]⟩

/-- Persisted cache for the C3 witness: checksum equal to the digest of
the source file plus the cached translation from the first run. -/
def cacheC3 : Autogen := ⟨some "H", [("fr", [("Hello", "Bonjour")])]⟩

/-- Witness for C3: a second run over the unchanged directory makes zero
provider calls and exits in the `Skip` state. -/
theorem C3_idempotence_witness :
    (getSourceFilePath dirC3 "en" = some ⟨"en", "json", "hello"⟩) ∧
    ((fun _ : String => some "H") (FileEnt.mk "en" "json" "hello").content =
      some "H") ∧
    (cacheC3.sha256 = some "H") ∧
    ((ConfigM.mk "en" ["fr"] true).target_locales ≠ []) ∧
    (∀ t ∈ (ConfigM.mk "en" ["fr"] true).target_locales,
      (t ++ "." ++ (FileEnt.mk "en" "json" "hello").extD) ∈
        dirC3.entries.map FileEnt.name) ∧
    (isMatchSha256 (fun _ : String => some "H")
        (verifyLocales dirC3 cacheC3 "en" ["fr"]).1 "en"
        ((verifyLocales dirC3 cacheC3 "en" ["fr"]).2.1.sha256.getD "") = none ∧
      (verifyLocales dirC3 cacheC3 "en" ["fr"]).2.2 = .ok () ∧
      (translateRun (fun _ _ => .ok []) (fun _ : String => some "H")
        (fun _ _ => some [("k", "Hello")])
        ⟨"en", ["fr"], true⟩ dirC3 cacheC3).state = .skip ∧
      (translateRun (fun _ _ => .ok []) (fun _ : String => some "H")
        (fun _ _ => some [("k", "Hello")])
        ⟨"en", ["fr"], true⟩ dirC3 cacheC3).result = .ok () ∧
      (translateRun (fun _ _ => .ok []) (fun _ : String => some "H")
        (fun _ _ => some [("k", "Hello")])
        ⟨"en", ["fr"], true⟩ dirC3 cacheC3).calls = 0 ∧
      (translateRun (fun _ _ => .ok []) (fun _ : String => some "H")
        (fun _ _ => some [("k", "Hello")])
        ⟨"en", ["fr"], true⟩ dirC3 cacheC3).cacheFile.sha256 = some "H") :=
  ⟨by decide, by decide, by decide, by decide, by decide,
    C3_idempotence (fun _ _ => .ok []) (fun _ : String => some "H")
      (fun _ _ => some [("k", "Hello")]) ⟨"en", ["fr"], true⟩ dirC3 cacheC3
      ⟨"en", "json", "hello"⟩ "H" (by decide) (by decide) (by decide)
      (by decide) (by decide)⟩

/-! ## Claim C1: deduplicator characterization -/

/-- Positions of `chunk` holding the string `s`. -/
def occIdxs (chunk : List String) (s : String) : List Nat :=
  (List.range chunk.length).filter (fun i => chunk.getD i "" = s)

/-- The distinct strings of a list, in order of first occurrence. -/
def firsts (l : List String) : List String :=
  l.foldl (fun acc q => if acc.contains q then acc else acc ++ [q]) []

/-- The deduplication index a chunk's request loop ends with: one group
per distinct string, holding all its positions. -/
def mapform (pre : List String) : MemCache :=
  (firsts pre).map (fun s => (s, occIdxs pre s))

/-- The outgoing query of the request loop, specified positionally: a
position whose string already occurred in the processed prefix sends the
`""` placeholder, a first occurrence sends the string itself. -/
def qryFrom (pre : List String) : List String → List String
  | [] => []
  | q :: rest => (if pre.contains q then "" else q) :: qryFrom (pre ++ [q]) rest

theorem mem_firsts_aux (l : List String) (q : String) :
    ∀ acc, q ∈ l.foldl (fun acc q => if acc.contains q then acc else acc ++ [q]) acc ↔
      q ∈ acc ∨ q ∈ l := by
  induction l with
  | nil => intro acc; simp
  | cons a l ih =>
    intro acc
    rw [List.foldl_cons, ih]
    by_cases h : acc.contains a
    · rw [if_pos h]
      have ha : a ∈ acc := by simpa using h
      constructor
      · rintro (hq | hq)
        · exact Or.inl hq
        · exact Or.inr (List.mem_cons_of_mem _ hq)
      · rintro (hq | hq)
        · exact Or.inl hq
        · rcases List.mem_cons.mp hq with rfl | hq
          · exact Or.inl ha
          · exact Or.inr hq
    · rw [if_neg h]
      simp only [List.mem_append, List.mem_singleton, List.mem_cons]
      tauto

theorem mem_firsts (l : List String) (q : String) : q ∈ firsts l ↔ q ∈ l := by
  rw [firsts, mem_firsts_aux]
  simp

theorem nodup_firsts_aux (l : List String) :
    ∀ acc : List String, acc.Nodup →
      (l.foldl (fun (acc : List String) (q : String) =>
        if acc.contains q then acc else acc ++ [q]) acc).Nodup := by
  induction l with
  | nil => intro acc h; exact h
  | cons a l ih =>
    intro acc h
    rw [List.foldl_cons]
    by_cases hc : acc.contains a
    · rw [if_pos hc]; exact ih acc h
    · rw [if_neg hc]
      refine ih _ ?_
      have : (acc.concat a).Nodup := (h.concat (by simpa using hc))
      simpa [List.concat_eq_append] using this

theorem nodup_firsts (l : List String) : (firsts l).Nodup :=
  nodup_firsts_aux l [] List.nodup_nil

theorem firsts_snoc (xs : List String) (x : String) :
    firsts (xs ++ [x]) = if x ∈ xs then firsts xs else firsts xs ++ [x] := by
  rw [firsts, List.foldl_append]
  show (if (firsts xs).contains x then firsts xs else firsts xs ++ [x]) = _
  by_cases h : x ∈ xs
  · rw [if_pos (by simpa [mem_firsts] using h), if_pos h]
  · rw [if_neg (by simpa [mem_firsts] using h), if_neg h]

theorem occIdxs_snoc (xs : List String) (x : String) (s : String) :
    occIdxs (xs ++ [x]) s =
      occIdxs xs s ++ (if s = x then [xs.length] else []) := by
  unfold occIdxs
  rw [List.length_append, List.length_singleton, List.range_succ,
    List.filter_append]
  congr 1
  · apply List.filter_congr
    intro i hi
    have hilt : i < xs.length := List.mem_range.mp hi
    have : (xs ++ [x]).getD i "" = xs.getD i "" := by
      simp only [List.getD_eq_getElem?_getD]
      rw [List.getElem?_append_left hilt]
    rw [this]
  · have hx : (xs ++ [x]).getD xs.length "" = x := by
      simp only [List.getD_eq_getElem?_getD]
      rw [List.getElem?_append_right (Nat.le_refl _)]
      simp
    simp only [List.filter_cons, List.filter_nil, hx]
    by_cases h : s = x
    · rw [if_pos (by simpa using h.symm), if_pos h]
    · rw [if_neg (by simpa using fun e => h e.symm), if_neg h]

theorem occIdxs_eq_nil_of_not_mem (xs : List String) (x : String)
    (h : x ∉ xs) : occIdxs xs x = [] := by
  rw [occIdxs, List.filter_eq_nil_iff]
  intro i hi
  have hilt : i < xs.length := List.mem_range.mp hi
  simp only [decide_eq_true_eq]
  intro he
  have hx : xs[i] = x := by
    rwa [List.getD_eq_getElem?_getD, List.getElem?_eq_getElem hilt,
      Option.getD_some] at he
  exact h (hx ▸ List.getElem_mem hilt)

theorem mem_occIdxs (chunk : List String) (s : String) (i : Nat) :
    i ∈ occIdxs chunk s ↔ i < chunk.length ∧ chunk.getD i "" = s := by
  rw [occIdxs, List.mem_filter, List.mem_range]
  simp

theorem memGet_map_self (g : String → List Nat) (L : List String) (q : String) :
    memGet (L.map (fun s => (s, g s))) q =
      if q ∈ L then some (g q) else none := by
  induction L with
  | nil => simp [memGet]
  | cons a L ih =>
    simp only [List.map_cons, memGet]
    by_cases h : a = q
    · subst h; simp
    · rw [if_neg h, ih]
      by_cases hq : q ∈ L
      · rw [if_pos hq, if_pos (List.mem_cons_of_mem _ hq)]
      · rw [if_neg hq, if_neg (by
          intro hc
          rcases List.mem_cons.mp hc with rfl | hc
          · exact h rfl
          · exact hq hc)]

theorem memPush_map_self (g : String → List Nat) (L : List String) (x : String)
    (n : Nat) (hnd : L.Nodup) :
    memPush (L.map (fun s => (s, g s))) x n =
      L.map (fun s => (s, if s = x then g s ++ [n] else g s)) := by
  induction L with
  | nil => rfl
  | cons a L ih =>
    simp only [List.map_cons, memPush]
    rcases List.nodup_cons.mp hnd with ⟨hna, hnd'⟩
    by_cases h : a = x
    · subst h
      rw [if_pos rfl, if_pos rfl]
      congr 1
      apply List.map_congr_left
      intro s hs
      have hne2 : ¬ s = a := fun e => hna (e ▸ hs)
      rw [if_neg hne2]
    · rw [if_neg h, if_neg h, ih hnd']

theorem memPush_mapform_of_mem (pre : List String) (q : String) (hq : q ∈ pre) :
    memPush (mapform pre) q pre.length = mapform (pre ++ [q]) := by
  rw [mapform, memPush_map_self _ _ _ _ (nodup_firsts pre), mapform,
    firsts_snoc, if_pos hq]
  apply List.map_congr_left
  intro s hs
  rw [occIdxs_snoc]
  by_cases h : s = q
  · rw [if_pos h, if_pos h]
  · rw [if_neg h, if_neg h, List.append_nil]

theorem append_mapform_of_not_mem (pre : List String) (q : String)
    (hq : q ∉ pre) :
    mapform pre ++ [(q, [pre.length])] = mapform (pre ++ [q]) := by
  rw [mapform, mapform, firsts_snoc, if_neg hq, List.map_append]
  congr 1
  · apply List.map_congr_left
    intro s hs
    rw [occIdxs_snoc, if_neg, List.append_nil]
    intro e
    exact hq (e ▸ (mem_firsts pre s).mp hs)
  · simp only [List.map_cons, List.map_nil]
    rw [occIdxs_snoc, if_pos rfl, occIdxs_eq_nil_of_not_mem pre q hq,
      List.nil_append]

theorem qryFrom_length (l : List String) : ∀ pre, (qryFrom pre l).length = l.length := by
  induction l with
  | nil => intro pre; rfl
  | cons q rest ih =>
    intro pre
    simp only [qryFrom, List.length_cons, ih]

theorem qryFrom_getElem (l : List String) :
    ∀ (pre : List String) (i : Nat), i < l.length →
      (qryFrom pre l)[i]? =
        some (if (pre ++ l.take i).contains (l.getD i "") then ""
          else l.getD i "") := by
  induction l with
  | nil => intro pre i hi; cases hi
  | cons q rest ih =>
    intro pre i hi
    cases i with
    | zero =>
      simp only [qryFrom, List.getElem?_cons_zero, List.take_zero,
        List.append_nil, List.getD_cons_zero]
    | succ i =>
      simp only [qryFrom, List.getElem?_cons_succ, List.getD_cons_succ,
        List.take_succ_cons]
      rw [ih (pre ++ [q]) i (by simpa using hi)]
      simp [List.append_assoc]

theorem memGet_mapform (pre : List String) (q : String) :
    memGet (mapform pre) q = if q ∈ pre then some (occIdxs pre q) else none := by
  rw [mapform, memGet_map_self]
  by_cases h : q ∈ pre
  · rw [if_pos ((mem_firsts pre q).mpr h), if_pos h]
  · rw [if_neg (fun hc => h ((mem_firsts pre q).mp hc)), if_neg h]

theorem buildChunkAux_mapform (rest : List String) :
    ∀ pre : List String,
      buildChunkAux rest pre.length (mapform pre) =
        (qryFrom pre rest, mapform (pre ++ rest)) := by
  induction rest with
  | nil =>
    intro pre
    simp [buildChunkAux, qryFrom]
  | cons q rest ih =>
    intro pre
    simp only [buildChunkAux, qryFrom]
    by_cases hq : q ∈ pre
    · have hm : memGet (mapform pre) q = some (occIdxs pre q) := by
        rw [memGet_mapform, if_pos hq]
      rw [hm]
      simp only []
      rw [memPush_mapform_of_mem pre q hq]
      have hlen : pre.length + 1 = (pre ++ [q]).length := by simp
      rw [hlen, ih (pre ++ [q])]
      rw [if_pos (by simpa using hq)]
      simp [List.append_assoc]
    · have hm : memGet (mapform pre) q = none := by
        rw [memGet_mapform, if_neg hq]
      rw [hm]
      simp only []
      rw [append_mapform_of_not_mem pre q hq]
      have hlen : pre.length + 1 = (pre ++ [q]).length := by simp
      rw [hlen, ih (pre ++ [q])]
      rw [if_neg (by simpa using hq)]
      simp [List.append_assoc]

theorem buildChunk_eq (chunk : List String) :
    buildChunk chunk = (qryFrom [] chunk, mapform chunk) := by
  have h := buildChunkAux_mapform chunk []
  simpa [buildChunk, mapform, firsts] using h

theorem findIdx_eq_isSome_iff (l : List Nat) (i : Nat) :
    (l.findIdx? (fun x => x = i)).isSome = true ↔ i ∈ l := by
  rw [List.findIdx?_isSome, List.any_eq_true]
  constructor
  · rintro ⟨x, hx, he⟩
    simp only [decide_eq_true_eq] at he
    exact he ▸ hx
  · intro h
    exact ⟨i, h, by simp⟩

theorem findGroup_map (g : String → List Nat) (L : List String) (i : Nat)
    (c : String) (hc : c ∈ L)
    (hprop : ∀ s ∈ L, (i ∈ g s ↔ s = c)) :
    findGroup (L.map (fun s => (s, g s))) i =
      match (g c).findIdx? (fun x => x = i) with
      | some pos => some ((g c).headD 0, pos)
      | none => none := by
  induction L with
  | nil => cases hc
  | cons a L ih =>
    simp only [List.map_cons, findGroup]
    by_cases ha : a = c
    · subst ha
      cases hfi : (g a).findIdx? (fun x => x = i) with
      | some pos => simp [hfi]
      | none =>
        exfalso
        have hmem : i ∈ g a := (hprop a (by simp)).mpr rfl
        have := (findIdx_eq_isSome_iff (g a) i).mpr hmem
        rw [hfi] at this
        cases this
    · have hia : i ∉ g a := fun hcon => ha ((hprop a (by simp)).mp hcon)
      have hfa : (g a).findIdx? (fun x => x = i) = none := by
        cases h2 : (g a).findIdx? (fun x => x = i) with
        | none => rfl
        | some p =>
          exact absurd ((findIdx_eq_isSome_iff (g a) i).mp (by rw [h2]; rfl)) hia
      rw [hfa]
      have hcL : c ∈ L := by
        rcases List.mem_cons.mp hc with rfl | h
        · exact absurd rfl ha
        · exact h
      exact ih hcL (fun s hs => hprop s (List.mem_cons_of_mem _ hs))

theorem findGroup_mapform (chunk : List String) (i : Nat)
    (hi : i < chunk.length) :
    findGroup (mapform chunk) i =
      match (occIdxs chunk (chunk.getD i "")).findIdx? (fun x => x = i) with
      | some pos => some ((occIdxs chunk (chunk.getD i "")).headD 0, pos)
      | none => none := by
  have hgd : chunk.getD i "" ∈ chunk := by
    rw [List.getD_eq_getElem?_getD, List.getElem?_eq_getElem hi, Option.getD_some]
    exact List.getElem_mem hi
  have hc : chunk.getD i "" ∈ firsts chunk := (mem_firsts _ _).mpr hgd
  rw [mapform]
  rw [findGroup_map _ _ i (chunk.getD i "") hc]
  intro s hs
  rw [mem_occIdxs]
  constructor
  · rintro ⟨_, he⟩
    exact he.symm
  · rintro rfl
    exact ⟨hi, rfl⟩

theorem filter_range_head (p : Nat → Bool) (n k : Nat) (hk : k < n)
    (hpk : p k = true) (hbelow : ∀ j, j < k → p j = false) :
    ((List.range n).filter p).head? = some k := by
  have harith : (n - (k + 1)) + (k + 1) = n := by omega
  have hsplit : List.range n =
      List.range (k + 1) ++ List.range' (k + 1) (n - (k + 1)) := by
    calc List.range n = List.range' 0 n := List.range_eq_range' n
      _ = List.range' 0 ((n - (k + 1)) + (k + 1)) := by rw [harith]
      _ = List.range' 0 (k + 1) ++ List.range' (0 + (k + 1)) (n - (k + 1)) :=
        (List.range'_append_1 0 (k + 1) (n - (k + 1))).symm
      _ = List.range (k + 1) ++ List.range' (k + 1) (n - (k + 1)) := by
        rw [← List.range_eq_range']
        simp
  rw [hsplit, List.filter_append, List.range_succ, List.filter_append]
  have h1 : (List.range k).filter p = [] :=
    List.filter_eq_nil_iff.mpr
      (fun a ha => by simp [hbelow a (List.mem_range.mp ha)])
  rw [h1, List.nil_append]
  simp [List.filter_cons, hpk]

theorem occIdxs_head (chunk : List String) (c : String) (k : Nat)
    (hk : k < chunk.length) (hc : chunk.getD k "" = c)
    (hbelow : ∀ j, j < k → chunk.getD j "" ≠ c) :
    (occIdxs chunk c).head? = some k := by
  apply filter_range_head _ _ _ hk
  · simp only [decide_eq_true_eq]
    exact hc
  · intro j hj
    simp only [decide_eq_false_iff_not]
    exact hbelow j hj

theorem findIdx_head_zero (l : List Nat) (k : Nat) (hh : l.head? = some k) :
    l.findIdx? (fun x => x = k) = some 0 := by
  rcases List.head?_eq_some_iff.mp hh with ⟨ys, rfl⟩
  simp [List.findIdx?_cons]

theorem findIdx_pos_of_head_ne (l : List Nat) (j0 i : Nat)
    (hh : l.head? = some j0) (hne : j0 ≠ i) (hmem : i ∈ l) :
    ∃ pos, l.findIdx? (fun x => x = i) = some pos ∧ 0 < pos := by
  rcases List.head?_eq_some_iff.mp hh with ⟨ys, rfl⟩
  rw [List.findIdx?_cons, if_neg (by simpa using hne)]
  rw [List.findIdx?_succ]
  have hmem' : i ∈ ys := by
    rcases List.mem_cons.mp hmem with rfl | h
    · exact absurd rfl hne
    · exact h
  have hsome : (ys.findIdx? (fun x => x = i)).isSome = true :=
    (findIdx_eq_isSome_iff ys i).mpr hmem'
  rcases Option.isSome_iff_exists.mp hsome with ⟨q, hq⟩
  exact ⟨q + 1, by rw [hq]; rfl, Nat.succ_pos q⟩

theorem mem_take_iff_getD (l : List String) (k : Nat) (c : String) :
    c ∈ l.take k ↔ ∃ j, j < k ∧ j < l.length ∧ l.getD j "" = c := by
  rw [List.mem_iff_getElem?]
  constructor
  · rintro ⟨j, hj⟩
    by_cases h1 : j < k
    · by_cases h2 : j < l.length
      · rw [List.getElem?_take_of_lt h1] at hj
        refine ⟨j, h1, h2, ?_⟩
        rw [List.getD_eq_getElem?_getD, hj, Option.getD_some]
      · exfalso
        have hnone : (l.take k)[j]? = none := by
          apply List.getElem?_eq_none
          rw [List.length_take]
          omega
        rw [hnone] at hj
        cases hj
    · exfalso
      have hnone : (l.take k)[j]? = none := by
        apply List.getElem?_eq_none
        rw [List.length_take]
        omega
      rw [hnone] at hj
      cases hj
  · rintro ⟨j, h1, h2, h3⟩
    refine ⟨j, ?_⟩
    rw [List.getElem?_take_of_lt h1]
    rw [List.getD_eq_getElem?_getD, List.getElem?_eq_getElem h2,
      Option.getD_some] at h3
    rw [List.getElem?_eq_getElem h2, h3]

theorem trimM_empty : trimM "" = "" := by decide

theorem reconstructAux_spec (chunk : List String) (T : String → String)
    (hT0 : T "" = "")
    (hTtrim : ∀ s ∈ chunk, trimM (T s) = T s) :
    ∀ (sub : List String) (k : Nat),
      ((qryFrom [] chunk).map T).drop k = sub →
      reconstructAux (mapform chunk) ((qryFrom [] chunk).map T) sub k =
        (chunk.drop k).map T := by
  intro sub
  induction sub with
  | nil =>
    intro k hdrop
    have hlen : ((qryFrom [] chunk).map T).length = chunk.length := by
      rw [List.length_map, qryFrom_length]
    have hk : chunk.length ≤ k := by
      have := List.drop_eq_nil_iff.mp hdrop
      omega
    rw [List.drop_eq_nil_of_le hk]
    rfl
  | cons text rest ih =>
    intro k hdrop
    have hlen : ((qryFrom [] chunk).map T).length = chunk.length := by
      rw [List.length_map, qryFrom_length]
    have hk : k < chunk.length := by
      by_contra hcon
      rw [List.drop_eq_nil_of_le (by omega)] at hdrop
      cases hdrop
    have htext : ((qryFrom [] chunk).map T)[k]? = some text := by
      have h0 : (((qryFrom [] chunk).map T).drop k)[0]? = some text := by
        rw [hdrop]
        simp
      rw [List.getElem?_drop] at h0
      simpa using h0
    have hrest : ((qryFrom [] chunk).map T).drop (k + 1) = rest := by
      have h1 := congrArg (List.drop 1) hdrop
      rw [List.drop_drop] at h1
      simpa using h1
    have htail := ih (k + 1) hrest
    have hq : (qryFrom [] chunk)[k]? =
        some (if (chunk.take k).contains (chunk.getD k "") then ""
          else chunk.getD k "") := by
      have h2 := qryFrom_getElem chunk [] k hk
      simpa using h2
    have htext' : text =
        T (if (chunk.take k).contains (chunk.getD k "") then ""
          else chunk.getD k "") := by
      rw [List.getElem?_map, hq] at htext
      simpa using htext.symm
    have hmem : chunk.getD k "" ∈ chunk := by
      rw [List.getD_eq_getElem?_getD, List.getElem?_eq_getElem hk,
        Option.getD_some]
      exact List.getElem_mem hk
    have hdropc : chunk.drop k = chunk.getD k "" :: chunk.drop (k + 1) := by
      rw [List.getD_eq_getElem?_getD, List.getElem?_eq_getElem hk,
        Option.getD_some]
      exact List.drop_eq_getElem_cons hk
    by_cases hdup : (chunk.take k).contains (chunk.getD k "")
    · -- a duplicate position: the placeholder was sent and comes back blank
      rw [if_pos hdup, hT0] at htext'
      subst htext'
      have hex0 : ∃ j, j < k ∧ j < chunk.length ∧
          chunk.getD j "" = chunk.getD k "" :=
        (mem_take_iff_getD chunk k (chunk.getD k "")).mp (by simpa using hdup)
      have hex : ∃ j, chunk.getD j "" = chunk.getD k "" :=
        ⟨hex0.choose, hex0.choose_spec.2.2⟩
      have hj0spec : chunk.getD (Nat.find hex) "" = chunk.getD k "" :=
        Nat.find_spec hex
      have hj0min : ∀ m, m < Nat.find hex → chunk.getD m "" ≠ chunk.getD k "" :=
        fun m hm => Nat.find_min hex hm
      have hj0le : Nat.find hex ≤ hex0.choose :=
        Nat.find_min' hex hex0.choose_spec.2.2
      have hj0k : Nat.find hex < k := lt_of_le_of_lt hj0le hex0.choose_spec.1
      have hj0n : Nat.find hex < chunk.length := lt_trans hj0k hk
      have hhead : (occIdxs chunk (chunk.getD k "")).head? = some (Nat.find hex) :=
        occIdxs_head chunk (chunk.getD k "") (Nat.find hex) hj0n hj0spec hj0min
      have hkmem : k ∈ occIdxs chunk (chunk.getD k "") :=
        (mem_occIdxs chunk (chunk.getD k "") k).mpr ⟨hk, rfl⟩
      rcases findIdx_pos_of_head_ne (occIdxs chunk (chunk.getD k "")) (Nat.find hex)
        k hhead (Nat.ne_of_lt hj0k) hkmem with ⟨pos, hpos, hpos0⟩
      have hfg : findGroup (mapform chunk) k =
          some ((occIdxs chunk (chunk.getD k "")).headD 0, pos) := by
        rw [findGroup_mapform chunk k hk, hpos]
      have hheadD : (occIdxs chunk (chunk.getD k "")).headD 0 = Nat.find hex := by
        rw [List.headD_eq_head?_getD, hhead]
        rfl
      have hqj0 : ((qryFrom [] chunk).map T).get? (Nat.find hex) =
          some (T (chunk.getD k "")) := by
        rw [List.get?_eq_getElem?, List.getElem?_map]
        have h3 := qryFrom_getElem chunk [] (Nat.find hex) hj0n
        have hnodup : ¬ (chunk.take (Nat.find hex)).contains
            (chunk.getD (Nat.find hex) "") := by
          intro hcon
          rcases (mem_take_iff_getD chunk (Nat.find hex)
            (chunk.getD (Nat.find hex) "")).mp (by simpa using hcon) with
            ⟨m, hm1, hm2, hm3⟩
          exact hj0min m hm1 (hm3.trans hj0spec)
        rw [List.nil_append] at h3
        rw [h3]
        rw [if_neg hnodup, hj0spec]
        rfl
      simp only [reconstructAux, trimM_empty, if_pos rfl, hfg, hheadD,
        hpos0, if_true, hqj0, htail]
      rw [hdropc, List.map_cons]
    · -- a first occurrence: the string itself was sent
      rw [if_neg hdup] at htext'
      subst htext'
      have hbelow : ∀ m, m < k → chunk.getD m "" ≠ chunk.getD k "" := by
        intro m hm hcon
        exact hdup (by
          have : chunk.getD k "" ∈ chunk.take k :=
            (mem_take_iff_getD chunk k (chunk.getD k "")).mpr
              ⟨m, hm, lt_trans hm hk, hcon⟩
          simpa using this)
      have hhead : (occIdxs chunk (chunk.getD k "")).head? = some k :=
        occIdxs_head chunk (chunk.getD k "") k hk rfl hbelow
      have hfz : (occIdxs chunk (chunk.getD k "")).findIdx? (fun x => x = k) =
          some 0 := findIdx_head_zero _ k hhead
      have hfg : findGroup (mapform chunk) k =
          some ((occIdxs chunk (chunk.getD k "")).headD 0, 0) := by
        rw [findGroup_mapform chunk k hk, hfz]
      have htr : trimM (T (chunk.getD k "")) = T (chunk.getD k "") :=
        hTtrim _ hmem
      by_cases hz : T (chunk.getD k "") = ""
      · simp only [reconstructAux, htr, if_pos hz, hfg, Nat.lt_irrefl,
          if_false]
        rw [htail, hdropc, List.map_cons, hz]
      · simp only [reconstructAux, htr, if_neg hz]
        rw [htail, hdropc, List.map_cons]

/-- The deduplicated query of a chunk together with the reconstructed
output: for any provider `T` that returns `""` for the `""` placeholder
and whose translations carry no surrounding whitespace, the chunk
translates position-wise. -/
theorem translateChunk_eq (chunk : List String) (T : String → String)
    (hT0 : T "" = "")
    (hTtrim : ∀ s ∈ chunk, trimM (T s) = T s) :
    translateChunk T chunk = chunk.map T := by
  rw [translateChunk, buildChunk_eq]
  simp only [reconstructChunk]
  have h := reconstructAux_spec chunk T hT0 hTtrim ((qryFrom [] chunk).map T) 0
    (by rw [List.drop_zero])
  rw [List.drop_zero] at h
  exact h

/-- Provider for the C1 counterexample: translates the distinct string
`"a"` once, to a translation with surrounding whitespace, and the `""`
placeholder to `""`. -/
def cexProviderC1 : String → String := fun s => if s = "a" then " x " else ""

/-- C1, counterexample: for the chunk `["a", "a"]` and a provider that
translates the one distinct string once (to `" x "`), only the first
occurrence is sent (the duplicate sends the `""` placeholder), but the
reconstructed output is `["x", " x "]`: the first occurrence is pushed
*trimmed* while the duplicate is back-filled with the *untrimmed*
decoded translation, so the duplicate position differs from the
translation produced at the first occurrence — refuting the claimed
equality of duplicate positions. -/
theorem C1_counterexample :
    cexProviderC1 "" = "" ∧
    (buildChunk ["a", "a"]).1 = ["a", ""] ∧
    translateChunk cexProviderC1 ["a", "a"] = ["x", " x "] ∧
    ("x" : String) ≠ " x " :=
  ⟨by decide, by decide, by decide, by decide⟩

/-- C1 (amended): for every input chunk, the request loop sends exactly
the first (lowest-index) occurrence of each distinct string — every
later occurrence sends the `""` placeholder instead — and, provided the
provider translates the placeholder to an empty string and its
translations carry no leading or trailing whitespace, the reconstructed
output equals the position-wise translation of the chunk: it has the
chunk's length and every duplicate position equals the translation
produced for that string's first occurrence. -/
theorem C1_dedup_reconstruction (chunk : List String) (T : String → String)
    (hT0 : T "" = "")
    (hTtrim : ∀ s ∈ chunk, trimM (T s) = T s) :
    ((buildChunk chunk).1.length = chunk.length) ∧
    (∀ i, i < chunk.length →
      (buildChunk chunk).1[i]? =
        some (if (chunk.take i).contains (chunk.getD i "") then ""
          else chunk.getD i "")) ∧
    translateChunk T chunk = chunk.map T := by
  refine ⟨?_, ?_, translateChunk_eq chunk T hT0 hTtrim⟩
  · rw [buildChunk_eq]
    simpa using qryFrom_length chunk []
  · intro i hi
    rw [buildChunk_eq]
    have h := qryFrom_getElem chunk [] i hi
    simpa using h

/-- Provider for the C1 witness: the specification's own example chunk. -/
def exProviderC1 : String → String := fun s =>
  if s = "hello" then "T-hello" else if s = "world" then "T-world" else ""

/-- Witness for C1: the chunk `["hello", "world", "hello"]` issues one
request unit for `"hello"` and one for `"world"` (the duplicate sends
the placeholder) and reconstructs `[T(hello), T(world), T(hello)]` with
positions 0 and 2 equal. -/
theorem C1_dedup_reconstruction_witness :
    (exProviderC1 "" = "") ∧
    (∀ s ∈ (["hello", "world", "hello"] : List String),
      trimM (exProviderC1 s) = exProviderC1 s) ∧
    ((buildChunk ["hello", "world", "hello"]).1.length = 3) ∧
    ((buildChunk ["hello", "world", "hello"]).1 = ["hello", "world", ""]) ∧
    (translateChunk exProviderC1 ["hello", "world", "hello"] =
      ["T-hello", "T-world", "T-hello"]) ∧
    (translateChunk exProviderC1 ["hello", "world", "hello"] =
      (["hello", "world", "hello"] : List String).map exProviderC1) := by
  have h := C1_dedup_reconstruction ["hello", "world", "hello"] exProviderC1
    (by decide) (by decide)
  exact ⟨by decide, by decide, h.1, by decide, by decide, h.2.2⟩

end AutoTranslate
